import Mathlib

/-!
Shallow embedding of toponetx/classes/simplex.py: the Simplex entity class and
the SimplexView dimension-indexed store, with insert_simplex,
remove_maximal_simplex, __contains__ and __getitem__.

Modelling conventions. Elements are natural numbers; a frozenset of elements
is a strictly sorted duplicate-free list (the canonical key); a Python dict is
an insertion-ordered association list with unique keys; a Python set of keys
is a duplicate-free list; a raised exception is an error value returned next
to the post-call state, and for calls that mutate before raising the returned
state carries the partial mutation, exactly as the Python object would.
-/

namespace Toponetx

open List

/-- Canonical key of a simplex: the model of frozenset(sorted(elements)), a
strictly sorted duplicate-free list of elements. -/
abbrev Key := List Nat

/-- Model of frozenset(sorted(xs)): duplicates collapsed, then sorted. -/
def canon (xs : List Nat) : Key := List.insertionSort (· ≤ ·) xs.dedup

/-- Attribute dictionary attached to a record (Python attr kwargs and the
stored properties). -/
abbrev Props := List (String × Nat)

/-- One assignment p[k] = v on an attribute dict. -/
def setProp : Props → String → Nat → Props
  | [], k, v => [(k, v)]
  | (k0, v0) :: rest, k, v =>
    if k = k0 then (k, v) :: rest else (k0, v0) :: setProp rest k v

/-- Model of dict.update(attr): overwrite or append each key in order. -/
def updateProps (p : Props) (attr : Props) : Props :=
  attr.foldl (fun acc kv => setProp acc kv.1 kv.2) p

/-- Stored record of one simplex: the is_maximal flag, the membership set (a
list of canonical keys with set semantics) and the attribute dict. -/
structure Rec where
  is_maximal : Bool
  membership : List Key
  props : Props
deriving DecidableEq, Repr

/-- Python set.add on a membership set: no duplicate insertion. -/
def addKey (l : List Key) (k : Key) : List Key :=
  if k ∈ l then l else l ++ [k]

/-- Python set.remove on a membership set: none models the KeyError raised on
a missing element. -/
def removeKey (l : List Key) (k : Key) : Option (List Key) :=
  if k ∈ l then some (l.filter (fun x => x ≠ k)) else none

/-- One dimension slot of faces_dict: a Python dict keyed by canonical keys,
modelled as an insertion-ordered association list. -/
abbrev Dict := List (Key × Rec)

/-- Model of dict lookup d[k] as an Option. -/
def dlookup : Dict → Key → Option Rec
  | [], _ => none
  | (k0, r0) :: rest, k => if k = k0 then some r0 else dlookup rest k

/-- Model of dict assignment d[k] = r: update in place, else append. -/
def dset : Dict → Key → Rec → Dict
  | [], k, r => [(k, r)]
  | (k0, r0) :: rest, k, r =>
    if k = k0 then (k, r) :: rest else (k0, r0) :: dset rest k r

/-- Model of del d[k]. -/
def derase (d : Dict) (k : Key) : Dict := d.filter (fun e => e.1 ≠ k)

/-- Python exceptions raised by the modelled methods. The KeyError raised
inside the repair loop of remove_maximal_simplex is kept distinct from the
KeyError of the entry check, so that theorems can tell the two apart. -/
inductive PyErr where
  /-- ValueError: a simplex cannot contain duplicate nodes. -/
  | dupNodes
  /-- ValueError: only maximal simplices can be deleted. -/
  | notMaximal
  /-- KeyError: key not in the dict (entry checks and attribute paths). -/
  | keyAbsent
  /-- KeyError raised inside the face-repair loop of remove_maximal_simplex:
  dict lookup of a missing face or set.remove of a missing member. -/
  | cascadeKey
  /-- IndexError: faces_dict indexed out of range. -/
  | indexError
deriving DecidableEq, Repr

/-- The SimplexView state: max_dim and the dimension-indexed list of dicts.
The name attribute is omitted: no modelled operation reads it. -/
structure SV where
  max_dim : Int
  faces_dict : List Dict
deriving DecidableEq, Repr

/-- A fresh SimplexView(). -/
def emptySV : SV := { max_dim := -1, faces_dict := [] }

/-- The always-in-range uses of faces_dict[i] inside the insertion machinery;
out of range yields the empty dict (never hit from the modelled call sites,
which extend the list to the needed length first). -/
def getDict (fd : List Dict) (i : Nat) : Dict := (fd[i]?).getD []

/-- In-place update of faces_dict[i]. -/
def modifyDict : List Dict → Nat → (Dict → Dict) → List Dict
  | [], _, _ => []
  | d :: rest, 0, f => f d :: rest
  | d :: rest, i + 1, f => d :: modifyDict rest i f

/-- Python list indexing with negative wrap-around; none is an IndexError. -/
def pyIdx (fd : List Dict) (i : Int) : Option Dict :=
  if 0 ≤ i then fd[i.toNat]?
  else if (-i).toNat ≤ fd.length then fd[fd.length - (-i).toNat]?
  else none

/-- Model of SimplexView._update_faces_dict_length. -/
def updateFacesDictLength (fd : List Dict) (n : Nat) : List Dict :=
  if fd.length < n then fd ++ List.replicate (n - fd.length) [] else fd

/-- All faces of a canonical key, one per non-empty sub-collection, largest
size first, mirroring the loop r = numnodes, ..., 1 of
Simplex.construct_simplex_tree. Python iterates each size in frozenset order,
which is unspecified; the model fixes one order, and no modelled result
depends on the order within one size. -/
def facesDesc (k : Key) : List Key :=
  ((List.range k.length).reverse.map (fun r => List.sublistsLen (r + 1) k)).flatten

/-- The faces iterated by the repair loop of remove_maximal_simplex; the loop
body skips the face equal to the simplex itself. -/
def properFaces (k : Key) : List Key :=
  (facesDesc k).filter (fun s => s.length ≠ k.length)

/-- Model of SimplexView._update_faces_dict_entry, returning the updated
faces_dict together with the updated maximal_faces accumulator. Every face
passed in is a member of facesDesc of the inserted simplex, hence already
canonical, so frozenset(sorted(face)) is the face itself. In the branch where
the face is present with the full length, the face equals the inserted
simplex and the source updates its attributes in place. -/
def updateFacesDictEntry (fd : List Dict) (face simplex_ : Key)
    (maximalFaces : List Key) (attr : Props) : List Dict × List Key :=
  let i := face.length - 1
  match dlookup (getDict fd i) face with
  | none =>
    if face.length = simplex_.length then
      (modifyDict fd i (fun d => dset d face ⟨true, [], []⟩), maximalFaces)
    else
      (modifyDict fd i (fun d => dset d face ⟨false, [simplex_], []⟩), maximalFaces)
  | some r =>
    if face.length ≠ simplex_.length then
      if r.is_maximal then
        (modifyDict fd i (fun d =>
          dset d face ⟨false, addKey r.membership simplex_, r.props⟩),
         addKey maximalFaces face)
      else
        (modifyDict fd i (fun d =>
          dset d face ⟨false,
            addKey (r.membership.filter (fun f => decide (f ∉ maximalFaces))) simplex_,
            r.props⟩),
         maximalFaces)
    else
      (modifyDict fd i (fun d =>
        match dlookup d simplex_ with
        | some r0 =>
          dset d simplex_ ⟨r0.is_maximal, r0.membership, updateProps r0.props attr⟩
        | none => d),
       maximalFaces)

/-- Model of SimplexView.insert_simplex for an iterable input of hashable
elements. Every error path of this method raises before any mutation, so the
returned state equals the input state whenever the error component is set.
An empty input indexes faces_dict[-1]: IndexError on an empty view, otherwise
the final attribute update raises KeyError; no mutation either way, because
the length update and the face loop are both no-ops for it. -/
def insertSimplex (S : SV) (xs : List Nat) (attr : Props) : SV × Option PyErr :=
  let simplex_ := canon xs
  if simplex_.length ≠ xs.length then
    (S, some .dupNodes)
  else if simplex_.isEmpty then
    (S, some (if S.faces_dict.isEmpty then .indexError else .keyAbsent))
  else
    let fd := updateFacesDictLength S.faces_dict simplex_.length
    match dlookup (getDict fd (simplex_.length - 1)) simplex_ with
    | some r =>
      let d1 := modifyDict fd (simplex_.length - 1) (fun d =>
        dset d simplex_ ⟨r.is_maximal, r.membership, updateProps r.props attr⟩)
      ({ S with faces_dict := d1 }, none)
    | none =>
      let md := if S.max_dim < (xs.length : Int) - 1 then (xs.length : Int) - 1
                else S.max_dim
      let st := (facesDesc simplex_).foldl
        (fun acc face => updateFacesDictEntry acc.1 face simplex_ acc.2 attr)
        (fd, ([] : List Key))
      let fd2 := modifyDict st.1 (simplex_.length - 1) (fun d =>
        match dlookup d simplex_ with
        | some r0 =>
          dset d simplex_ ⟨r0.is_maximal, r0.membership, updateProps r0.props attr⟩
        | none => d)
      ({ max_dim := md, faces_dict := fd2 }, none)

/-- One iteration of the repair loop of remove_maximal_simplex on face s;
rawLen is the length of the raw method argument, which the source compares
against in the maximality-restoring condition. -/
def cascadeStep (fd : List Dict) (simplex_ : Key) (rawLen : Nat) (s : Key) :
    Except PyErr (List Dict) :=
  match dlookup (getDict fd (s.length - 1)) s with
  | none => .error .cascadeKey
  | some r =>
    match removeKey r.membership simplex_ with
    | none => .error .cascadeKey
    | some m =>
      let flag := if m.length = 0 ∧ (s.length : Int) = (rawLen : Int) - 1 then true
                  else r.is_maximal
      .ok (modifyDict fd (s.length - 1) (fun d => dset d s ⟨flag, m, r.props⟩))

/-- The repair loop of remove_maximal_simplex: fold over the proper faces,
short-circuiting on the first raised exception while keeping the partially
mutated faces_dict. -/
def cascadeFold (fd0 : List Dict) (simplex_ : Key) (rawLen : Nat) :
    List Dict × Option PyErr :=
  (properFaces simplex_).foldl
    (fun (acc : List Dict × Option PyErr) s =>
      match acc.2 with
      | some _ => acc
      | none =>
        match cascadeStep acc.1 simplex_ rawLen s with
        | .ok fd1 => (fd1, none)
        | .error e => (acc.1, some e))
    (fd0, none)

/-- Model of SimplexView.remove_maximal_simplex for an iterable input. The
returned state carries the partial mutation when the repair loop raises
mid-way; the record of the deleted simplex stays deleted, as in the Python
object after the exception propagates. -/
def removeMaximalSimplex (S : SV) (xs : List Nat) : SV × Option PyErr :=
  let simplex_ := canon xs
  match pyIdx S.faces_dict ((simplex_.length : Int) - 1) with
  | none => (S, some .indexError)
  | some d =>
    match dlookup d simplex_ with
    | none => (S, some .keyAbsent)
    | some r =>
      if r.is_maximal then
        let fd0 := modifyDict S.faces_dict (simplex_.length - 1)
          (fun d0 => derase d0 simplex_)
        let res := cascadeFold fd0 simplex_ xs.length
        match res.2 with
        | some e => ({ S with faces_dict := res.1 }, some e)
        | none =>
          if (getDict res.1 (simplex_.length - 1)).length = 0 ∧
              (simplex_.length : Int) - 1 = S.max_dim then
            let fd2 := res.1.eraseIdx (simplex_.length - 1)
            ({ max_dim := (fd2.length : Int) - 1, faces_dict := fd2 }, none)
          else
            ({ S with faces_dict := res.1 }, none)
      else
        (S, some .notMaximal)

/-- Lookup of a canonical key in the store at its own dimension slot. -/
def svLookup (S : SV) (k : Key) : Option Rec :=
  match S.faces_dict[k.length - 1]? with
  | some d => dlookup d k
  | none => none

/-- One public mutating call on a SimplexView. -/
inductive Op where
  | ins (xs : List Nat) (attr : Props)
  | rem (xs : List Nat)

/-- Post-call state of one call, keeping any partial mutation of a call that
raised. -/
def applyOp (S : SV) : Op → SV
  | .ins xs attr => (insertSimplex S xs attr).1
  | .rem xs => (removeMaximalSimplex S xs).1

/-- State after a finite sequence of insert and remove calls. -/
def runOps (S : SV) (ops : List Op) : SV := ops.foldl applyOp S

/-- State after a finite sequence of insert_simplex calls only. -/
def runInserts (S : SV) (l : List (List Nat × Props)) : SV :=
  l.foldl (fun acc p => (insertSimplex acc p.1 p.2).1) S

/-- Model of the Simplex entity class. objId models Python object identity:
the class defines neither __eq__ nor __hash__, so comparison and hashing fall
back to the identity of the object, and two separately constructed objects
carry distinct ids. Each face object of the simplex tree is represented by
its canonical node set; all the combinations enumerated by
construct_simplex_tree have distinct node sets. -/
structure PySimplex where
  objId : Nat
  name : String
  nodes : Key
  construct_tree : Bool
  treeFaces : List Key
  properties : Props
deriving DecidableEq, Repr

/-- Model of Simplex.__init__; the error is the ValueError raised when the
input contains duplicate nodes. -/
def mkSimplex (oid : Nat) (elements : List Nat) (nm : String) (ct : Bool)
    (attr : Props) : Except PyErr PySimplex :=
  let nodes := canon elements
  if nodes.length ≠ elements.length then .error .dupNodes
  else .ok ⟨oid, nm, nodes, ct, if ct then facesDesc nodes else [], attr⟩

/-- Model of the Simplex.faces property. -/
def simplexFaces (s : PySimplex) : List Key :=
  if s.construct_tree then s.treeFaces else facesDesc s.nodes

/-- Model of Python == between Simplex objects: with no __eq__ defined, this
is object identity. -/
def simplexPyEq (s t : PySimplex) : Bool := s.objId == t.objId

/-- Model of hash() on a Simplex object: with no __hash__ defined, derived
from the object id. -/
def simplexPyHash (s : PySimplex) : Nat := s.objId

/-- Argument passed to Simplex.__contains__: a bare hashable element or an
iterable of elements. -/
inductive CArg where
  | node (n : Nat)
  | coll (l : List Nat)

/-- Model of Simplex.__contains__. A bare integer element e takes the branch
testing whether the one-element frozenset of e is an element of self.nodes;
a frozenset is never equal to an integer node, so that branch is false. -/
def simplexContains (s : PySimplex) (e : CArg) : Bool :=
  if s.nodes.length = 0 then false
  else
    match e with
    | .coll l => if l.length ≠ 1 then false else l.all (fun x => decide (x ∈ s.nodes))
    | .node _ => false

/-- Argument passed to SimplexView.__getitem__. -/
inductive GArg where
  | obj (s : PySimplex)
  | coll (l : List Nat)
  | node (n : Nat)

/-- Model of SimplexView.__getitem__. Ok none models the implicit return of
None when a branch falls through without raising: this happens for a Simplex
object whose nodes are absent from its in-range dimension slot, and for a
bare node for which the containment test fails. -/
def svGetItem (S : SV) (a : GArg) : Except PyErr (Option Rec) :=
  match a with
  | .obj s =>
    match pyIdx S.faces_dict ((s.nodes.length : Int) - 1) with
    | none => .error .indexError
    | some d =>
      match dlookup d s.nodes with
      | some r => .ok (some r)
      | none => .ok none
  | .coll l =>
    let k := canon l
    match pyIdx S.faces_dict ((k.length : Int) - 1) with
    | none => .error .indexError
    | some d =>
      match dlookup d k with
      | some r => .ok (some r)
      | none => .error .keyAbsent
  | .node n =>
    match S.faces_dict.head? with
    | none => .ok none
    | some d =>
      if S.max_dim < 0 then .ok none
      else .ok (dlookup d [n])

/-- Simplex((1,2)) with object id 0 and no attributes. -/
def simplexPair : PySimplex := ⟨0, "", [1, 2], true, facesDesc [1, 2], []⟩

/-- Simplex((1,2,3)) with object id 0 and no attributes. -/
def simplexTri : PySimplex := ⟨0, "", [1, 2, 3], true, facesDesc [1, 2, 3], []⟩

/-- The view holding the single inserted simplex (1,2,3). -/
def viewTri : SV := (insertSimplex emptySV [1, 2, 3] []).1

/-- The view after insert_simplex((1,2,3)) followed by
remove_maximal_simplex((1,2,3)). -/
def viewTriRemoved : SV := runOps emptySV [.ins [1, 2, 3] [], .rem [1, 2, 3]]

/-- The view holding the single inserted node 1. -/
def viewNode : SV := (insertSimplex emptySV [1] []).1

/-- Simplex((2,1)) with object id 1: same node set as simplexPair, distinct
object. -/
def simplexPair1 : PySimplex := ⟨1, "", [1, 2], true, facesDesc [1, 2], []⟩

/-- Simplex((5,)) with object id 0. -/
def simplexNode5 : PySimplex := ⟨0, "", [5], true, facesDesc [5], []⟩

/-- Lookup of a canonical key in a faces_dict list at the key's own slot. -/
def flookup (fd : List Dict) (k : Key) : Option Rec :=
  dlookup (getDict fd (k.length - 1)) k

/-- Boolean reading of the is_maximal flag of a stored key. -/
def flagTrue (fd : List Dict) (k : Key) : Bool :=
  match flookup fd k with
  | some r => r.is_maximal
  | none => false

/-- Dimension soundness of a faces_dict list: every key stored in slot i is a
canonical (strictly sorted, duplicate-free) key of exactly i + 1 elements. -/
def DimsOK (fd : List Dict) : Prop :=
  ∀ i d, fd[i]? = some d → ∀ e ∈ d, e.1.length = i + 1 ∧ e.1.Sorted (· < ·)

/-- The record the insertion loop leaves for a face f of simplex_, expressed
against the pre-insertion store: a fresh face carries the inserted simplex as
sole member; a previously maximal face is demoted and gains the inserted
simplex; a previously non-maximal face keeps exactly the members that are not
demoted faces of the inserted simplex, and gains the inserted simplex. -/
def loopRec (fd : List Dict) (simplex_ : Key) (f : Key) : Rec :=
  match flookup fd f with
  | none => if f = simplex_ then ⟨true, [], []⟩ else ⟨false, [simplex_], []⟩
  | some r =>
    if r.is_maximal then ⟨false, addKey r.membership simplex_, r.props⟩
    else ⟨false,
      addKey (r.membership.filter
        (fun m => !(decide (m <+ simplex_) && flagTrue fd m))) simplex_,
      r.props⟩

/-- Invariant I2 of one stored record: the is_maximal flag holds exactly when
the membership set is empty. -/
def I2rec (r : Rec) : Prop := r.is_maximal = true ↔ r.membership = []

/-- The shape of a stored record: everything except the attribute dict. -/
def rshape (o : Option Rec) : Option (Bool × List Key) :=
  o.map (fun r => (r.is_maximal, r.membership))

/-- Every stored key is a canonical (strictly sorted) non-empty key. -/
def KeysOK (S : SV) : Prop :=
  ∀ k r, svLookup S k = some r → k.Sorted (· < ·) ∧ k ≠ []

/-- Every non-empty face of a stored key is itself stored. -/
def FacesStored (S : SV) : Prop :=
  ∀ k r, svLookup S k = some r → ∀ f, f <+ k → f ≠ [] →
    ∃ rf, svLookup S f = some rf

/-- The membership set of a stored key holds exactly the stored maximal
strict supersets of that key. -/
def MembExact (S : SV) : Prop :=
  ∀ k r, svLookup S k = some r → ∀ m,
    m ∈ r.membership ↔
      k <+ m ∧ k ≠ m ∧ ∃ rm, svLookup S m = some rm ∧ rm.is_maximal = true

/-- A maximal stored record has an empty membership set. -/
def MaxEmpty (S : SV) : Prop :=
  ∀ k r, svLookup S k = some r → r.is_maximal = true → r.membership = []

/-- The store invariant that insert_simplex maintains. -/
def StoreInv (S : SV) : Prop :=
  KeysOK S ∧ FacesStored S ∧ MembExact S ∧ MaxEmpty S

/-- Every allocated dimension slot of the store holds some key of its own
dimension. -/
def SlotsCovered (S : SV) : Prop :=
  ∀ i, i < S.faces_dict.length →
    ∃ k r, k.length = i + 1 ∧ svLookup S k = some r

theorem svLookup_eq_flookup (S : SV) (k : Key) :
    svLookup S k = flookup S.faces_dict k := by
  unfold svLookup flookup getDict
  cases h : S.faces_dict[k.length - 1]? <;> simp [h, dlookup]

/-! Dictionary lemmas. -/

theorem dlookup_dset_self (d : Dict) (k : Key) (r : Rec) :
    dlookup (dset d k r) k = some r := by
  induction d with
  | nil => simp [dset, dlookup]
  | cons e rest ih =>
    by_cases h : k = e.1
    · simp [dset, h, dlookup]
    · simp [dset, h, dlookup, ih]

theorem dlookup_dset_ne (d : Dict) (k g : Key) (r : Rec) (h : g ≠ k) :
    dlookup (dset d k r) g = dlookup d g := by
  induction d with
  | nil => simp [dset, dlookup, h]
  | cons e rest ih =>
    by_cases hk : k = e.1
    · subst hk
      simp [dset, dlookup, h]
    · by_cases hg : g = e.1
      · simp [dset, hk, dlookup, hg]
      · simp [dset, hk, dlookup, hg, ih]

theorem dset_eq_append (d : Dict) (k : Key) (r : Rec) (h : dlookup d k = none) :
    dset d k r = d ++ [(k, r)] := by
  induction d with
  | nil => simp [dset]
  | cons e rest ih =>
    by_cases hk : k = e.1
    · simp [dlookup, hk] at h
    · simp [dlookup, hk] at h
      simp [dset, hk, ih h]

theorem length_dset_of_mem (d : Dict) (k : Key) (r r0 : Rec)
    (h : dlookup d k = some r0) : (dset d k r).length = d.length := by
  induction d with
  | nil => simp [dlookup] at h
  | cons e rest ih =>
    by_cases hk : k = e.1
    · simp [dset, hk]
    · simp [dlookup, hk] at h
      simp [dset, hk, ih h]

theorem dlookup_eq_none_of_keys (d : Dict) (k : Key) (h : ∀ e ∈ d, e.1 ≠ k) :
    dlookup d k = none := by
  induction d with
  | nil => rfl
  | cons e rest ih =>
    have h1 : e.1 ≠ k := h e (by simp)
    have : k ≠ e.1 := fun hh => h1 hh.symm
    simp [dlookup, this]
    exact ih (fun x hx => h x (by simp [hx]))

theorem keys_ne_of_dlookup_none (d : Dict) (k : Key) (h : dlookup d k = none) :
    ∀ e ∈ d, e.1 ≠ k := by
  induction d with
  | nil => simp
  | cons e rest ih =>
    by_cases hk : k = e.1
    · simp [dlookup, hk] at h
    · simp [dlookup, hk] at h
      intro x hx
      rw [List.mem_cons] at hx
      rcases hx with hx | hx
      · subst hx; exact fun hh => hk hh.symm
      · exact ih h x hx

theorem mem_dset (d : Dict) (k : Key) (r : Rec) :
    ∀ e ∈ dset d k r, e = (k, r) ∨ e ∈ d := by
  induction d with
  | nil => simp [dset]
  | cons e0 rest ih =>
    by_cases hk : k = e0.1
    · intro e he
      simp only [dset, if_pos hk, List.mem_cons] at he
      rcases he with he | he
      · exact Or.inl he
      · exact Or.inr (by simp [he])
    · intro e he
      simp only [dset, if_neg hk, List.mem_cons] at he
      rcases he with he | he
      · exact Or.inr (by simp [he])
      · rcases ih e he with h1 | h1
        · exact Or.inl h1
        · exact Or.inr (by simp [h1])

theorem dlookup_mem (d : Dict) (k : Key) (r : Rec) (h : dlookup d k = some r) :
    (k, r) ∈ d := by
  induction d with
  | nil => simp [dlookup] at h
  | cons e rest ih =>
    by_cases hk : k = e.1
    · simp [dlookup, hk] at h
      subst hk
      simp [← h]
    · simp [dlookup, hk] at h
      simp [ih h]

theorem derase_append_singleton (d : Dict) (k : Key) (r : Rec)
    (h : ∀ e ∈ d, e.1 ≠ k) : derase (d ++ [(k, r)]) k = d := by
  unfold derase
  rw [List.filter_append]
  have h1 : d.filter (fun e => e.1 ≠ k) = d := by
    refine List.filter_eq_self.mpr ?_
    intro a ha
    simpa using h a ha
  simp only [h1, List.filter_cons, List.filter_nil]
  have h2 : (decide ((k, r).1 ≠ k)) = false := by simp
  simp [h2]

theorem dset_nonempty (d : Dict) (k : Key) (r : Rec) : dset d k r ≠ [] := by
  cases d with
  | nil => simp [dset]
  | cons e rest =>
    by_cases hk : k = e.1 <;> simp [dset, hk]

theorem length_dset_ge (d : Dict) (k : Key) (r : Rec) :
    d.length ≤ (dset d k r).length := by
  induction d with
  | nil => simp [dset]
  | cons e rest ih =>
    by_cases hk : k = e.1 <;> simp [dset, hk]
    exact ih

/-! Lemmas about the canonical-key construction. -/

theorem canon_perm_dedup (xs : List Nat) : List.Perm (canon xs) xs.dedup :=
  List.perm_insertionSort (· ≤ ·) xs.dedup

theorem canon_nodup (xs : List Nat) : (canon xs).Nodup :=
  (canon_perm_dedup xs).nodup_iff.mpr (List.nodup_dedup xs)

theorem canon_sorted_le (xs : List Nat) : (canon xs).Sorted (· ≤ ·) :=
  List.sorted_insertionSort (· ≤ ·) xs.dedup

theorem canon_sorted (xs : List Nat) : (canon xs).Sorted (· < ·) := by
  have h1 := canon_sorted_le xs
  have h2 := canon_nodup xs
  unfold List.Sorted at h1 ⊢
  unfold List.Nodup at h2
  exact (h1.and h2).imp (fun h => lt_of_le_of_ne h.1 h.2)

theorem canon_mem (xs : List Nat) (a : Nat) : a ∈ canon xs ↔ a ∈ xs := by
  rw [(canon_perm_dedup xs).mem_iff]
  exact List.mem_dedup

theorem canon_length_eq_iff (xs : List Nat) :
    (canon xs).length = xs.length ↔ xs.Nodup := by
  rw [(canon_perm_dedup xs).length_eq]
  constructor
  · intro h
    have hsub := List.dedup_sublist xs
    have := hsub.eq_of_length h
    rw [← this]
    exact List.nodup_dedup xs
  · intro h
    rw [List.dedup_eq_self.mpr h]

theorem canon_of_nodup_length (xs : List Nat) (h : xs.Nodup) :
    (canon xs).length = xs.length := (canon_length_eq_iff xs).mpr h

theorem canon_toFinset (xs : List Nat) : (canon xs).toFinset = xs.toFinset := by
  ext a
  simp [List.mem_toFinset, canon_mem]

/-- A sorted duplicate-free list that is a subset of another sorted list is a
sublist of it. -/
theorem sublist_of_subset_of_sorted :
    ∀ (b a : List Nat), a.Sorted (· < ·) → b.Sorted (· < ·) → a ⊆ b → a <+ b
  | _, [], _, _, _ => List.nil_sublist _
  | [], x :: xs, _, _, hsub =>
    absurd (hsub (List.mem_cons_self x xs)) (List.not_mem_nil x)
  | y :: ys, x :: xs, hsa, hsb, hsub => by
    by_cases hxy : x = y
    · subst hxy
      refine List.Sublist.cons₂ x
        (sublist_of_subset_of_sorted ys xs hsa.of_cons hsb.of_cons ?_)
      intro z hz
      have hlt := List.rel_of_sorted_cons hsa z hz
      have hz2 := hsub (List.mem_cons_of_mem x hz)
      rw [List.mem_cons] at hz2
      rcases hz2 with h1 | h1
      · rw [h1] at hlt
        exact absurd hlt (lt_irrefl x)
      · exact h1
    · refine List.Sublist.cons y
        (sublist_of_subset_of_sorted ys (x :: xs) hsa hsb.of_cons ?_)
      intro z hz
      have hzb := hsub hz
      rw [List.mem_cons] at hzb
      rcases hzb with h1 | h1
      · have hxb := hsub (List.mem_cons_self x xs)
        rw [List.mem_cons] at hxb
        rcases hxb with h2 | h2
        · exact absurd h2 hxy
        · have hyx := List.rel_of_sorted_cons hsb x h2
          rw [List.mem_cons] at hz
          rcases hz with h3 | h3
          · rw [h3] at h1
            exact absurd h1 hxy
          · have hxz := List.rel_of_sorted_cons hsa z h3
            rw [h1] at hxz
            exact absurd (hyx.trans hxz) (lt_irrefl y)
      · exact h1

/-- Two sorted duplicate-free lists with the same members are equal. -/
theorem sorted_eq_of_subset_subset (a b : List Nat)
    (hsa : a.Sorted (· < ·)) (hsb : b.Sorted (· < ·))
    (hab : a ⊆ b) (hba : b ⊆ a) : a = b := by
  have h1 := sublist_of_subset_of_sorted b a hsa hsb hab
  have h2 := sublist_of_subset_of_sorted a b hsb hsa hba
  exact h1.eq_of_length (le_antisymm h1.length_le h2.length_le)

/-! Lemmas about modifyDict, getDict and updateFacesDictLength. -/

theorem length_modifyDict (fd : List Dict) (i : Nat) (f : Dict → Dict) :
    (modifyDict fd i f).length = fd.length := by
  induction fd generalizing i with
  | nil => rfl
  | cons d rest ih =>
    cases i with
    | zero => simp [modifyDict]
    | succ j => simp [modifyDict, ih]

theorem getElem?_modifyDict_ne (fd : List Dict) (i j : Nat) (f : Dict → Dict)
    (h : i ≠ j) : (modifyDict fd i f)[j]? = fd[j]? := by
  induction fd generalizing i j with
  | nil => rfl
  | cons d rest ih =>
    cases i with
    | zero =>
      cases j with
      | zero => exact absurd rfl h
      | succ j0 => simp [modifyDict]
    | succ i0 =>
      cases j with
      | zero => simp [modifyDict]
      | succ j0 =>
        simp only [modifyDict, List.getElem?_cons_succ]
        exact ih i0 j0 (fun hh => h (by rw [hh]))

theorem getElem?_modifyDict_self (fd : List Dict) (i : Nat) (f : Dict → Dict)
    (h : i < fd.length) : (modifyDict fd i f)[i]? = (fd[i]?).map f := by
  induction fd generalizing i with
  | nil => simp at h
  | cons d rest ih =>
    cases i with
    | zero => simp [modifyDict]
    | succ j =>
      simp only [modifyDict, List.getElem?_cons_succ]
      exact ih j (by simpa using h)

theorem getDict_modifyDict_ne (fd : List Dict) (i j : Nat) (f : Dict → Dict)
    (h : i ≠ j) : getDict (modifyDict fd i f) j = getDict fd j := by
  unfold getDict
  rw [getElem?_modifyDict_ne fd i j f h]

theorem getDict_modifyDict_self (fd : List Dict) (i : Nat) (f : Dict → Dict)
    (h : i < fd.length) : getDict (modifyDict fd i f) i = f (getDict fd i) := by
  unfold getDict
  rw [getElem?_modifyDict_self fd i f h]
  rw [List.getElem?_eq_getElem h]
  simp

theorem length_updateFacesDictLength (fd : List Dict) (n : Nat) :
    (updateFacesDictLength fd n).length = max fd.length n := by
  unfold updateFacesDictLength
  by_cases h : fd.length < n
  · simp [h]
    omega
  · simp [h]
    omega

theorem getElem?_updateFacesDictLength_lt (fd : List Dict) (n : Nat) (i : Nat)
    (h : i < fd.length) : (updateFacesDictLength fd n)[i]? = fd[i]? := by
  unfold updateFacesDictLength
  by_cases hc : fd.length < n
  · simp only [if_pos hc]
    exact List.getElem?_append_left h
  · simp [hc]

theorem getDict_updateFacesDictLength (fd : List Dict) (n : Nat) (i : Nat) :
    getDict (updateFacesDictLength fd n) i = getDict fd i := by
  unfold getDict
  by_cases h : i < fd.length
  · rw [getElem?_updateFacesDictLength_lt fd n i h]
  · have h1 : fd[i]? = none := List.getElem?_eq_none (by omega)
    rw [h1]
    unfold updateFacesDictLength
    by_cases hc : fd.length < n
    · simp only [if_pos hc]
      by_cases h2 : i < fd.length + (n - fd.length)
      · rw [List.getElem?_append_right (by omega : fd.length ≤ i)]
        rw [List.getElem?_replicate]
        have h4 : i - fd.length < n - fd.length := by omega
        simp [h4]
      · have h3 : (fd ++ List.replicate (n - fd.length) ([] : Dict))[i]? = none := by
          refine List.getElem?_eq_none ?_
          simp
          omega
        rw [h3]
    · simp [hc, h1]

theorem flookup_updateFacesDictLength (fd : List Dict) (n : Nat) (k : Key) :
    flookup (updateFacesDictLength fd n) k = flookup fd k := by
  unfold flookup
  rw [getDict_updateFacesDictLength]

/-! Structural lemmas about the face enumeration. -/

theorem mem_facesDesc (k f : Key) : f ∈ facesDesc k ↔ f <+ k ∧ f ≠ [] := by
  unfold facesDesc
  rw [List.mem_flatten]
  constructor
  · rintro ⟨l, hl, hf⟩
    rw [List.mem_map] at hl
    obtain ⟨r, _, rfl⟩ := hl
    rw [List.mem_sublistsLen] at hf
    refine ⟨hf.1, ?_⟩
    intro hnil
    rw [hnil] at hf
    simp at hf
  · rintro ⟨hsub, hne⟩
    refine ⟨List.sublistsLen f.length k, ?_, ?_⟩
    · rw [List.mem_map]
      refine ⟨f.length - 1, ?_, ?_⟩
      · rw [List.mem_reverse, List.mem_range]
        have h1 : f.length ≤ k.length := hsub.length_le
        have h2 : 1 ≤ f.length := by
          cases f with
          | nil => exact absurd rfl hne
          | cons a l => simp
        omega
      · have h2 : 1 ≤ f.length := by
          cases f with
          | nil => exact absurd rfl hne
          | cons a l => simp
        congr 1
        omega
    · exact List.mem_sublistsLen.mpr ⟨hsub, rfl⟩

theorem sublistsLen_full (l : Key) : List.sublistsLen l.length l = [l] := by
  have hlen : (List.sublistsLen l.length l).length = 1 := by
    rw [List.length_sublistsLen, Nat.choose_self]
  obtain ⟨a, ha⟩ := List.length_eq_one.mp hlen
  have hmem : l ∈ List.sublistsLen l.length l :=
    List.mem_sublistsLen_self (List.Sublist.refl l)
  rw [ha] at hmem
  rw [List.mem_singleton] at hmem
  rw [ha, hmem]

theorem facesDesc_eq_cons (k : Key) (h : k ≠ []) :
    ∃ rest, facesDesc k = k :: rest := by
  obtain ⟨m, hm⟩ : ∃ m, k.length = m + 1 := by
    cases k with
    | nil => exact absurd rfl h
    | cons a l => exact ⟨l.length, rfl⟩
  unfold facesDesc
  rw [hm, List.range_succ]
  have h1 : List.sublistsLen (m + 1) k = [k] := by
    rw [← hm]
    exact sublistsLen_full k
  refine ⟨((List.range m).reverse.map (fun r => List.sublistsLen (r + 1) k)).flatten, ?_⟩
  simp only [List.reverse_append, List.reverse_cons, List.reverse_nil, List.nil_append,
    List.map_append, List.map_cons, List.map_nil, List.flatten_append, List.flatten_cons,
    List.flatten_nil, h1, List.singleton_append, List.cons_append, List.nil_append]

theorem facesDesc_nodup (k : Key) (h : k.Nodup) : (facesDesc k).Nodup := by
  unfold facesDesc
  rw [List.nodup_flatten]
  constructor
  · intro l hl
    rw [List.mem_map] at hl
    obtain ⟨r, _, rfl⟩ := hl
    exact List.nodup_sublistsLen (r + 1) h
  · rw [List.pairwise_map]
    have hpw : (List.range k.length).reverse.Pairwise (fun a b => b < a) := by
      rw [List.pairwise_reverse]
      exact List.pairwise_lt_range k.length
    refine hpw.imp ?_
    intro a b hab
    intro x hx1 hx2
    rw [List.mem_sublistsLen] at hx1 hx2
    omega

theorem facesDesc_pairwise_len (k : Key) :
    (facesDesc k).Pairwise (fun a b => b.length ≤ a.length) := by
  unfold facesDesc
  rw [List.pairwise_flatten]
  refine ⟨?_, ?_⟩
  · intro l hl
    rw [List.mem_map] at hl
    obtain ⟨r, _, rfl⟩ := hl
    refine List.pairwise_of_forall_mem_list ?_
    intro a ha b hb
    rw [List.mem_sublistsLen] at ha hb
    omega
  · rw [List.pairwise_map]
    have hpw : (List.range k.length).reverse.Pairwise (fun a b => b < a) := by
      rw [List.pairwise_reverse]
      exact List.pairwise_lt_range k.length
    refine hpw.imp ?_
    intro a b hab
    intro x hx1 y hy1
    rw [List.mem_sublistsLen] at hx1 hy1
    omega

/-- In a split of the face enumeration, every face strictly longer than the
head of the remainder has already been enumerated. -/
theorem facesDesc_split_mem (k : Key) (done rem : List Key) (g h0 : Key)
    (hsplit : facesDesc k = done ++ h0 :: rem)
    (hg : g <+ k) (hgne : g ≠ []) (hlen : h0.length < g.length) :
    g ∈ done := by
  have hmem : g ∈ facesDesc k := (mem_facesDesc k g).mpr ⟨hg, hgne⟩
  rw [hsplit, List.mem_append] at hmem
  rcases hmem with hmem | hmem
  · exact hmem
  · exfalso
    have hpw := facesDesc_pairwise_len k
    rw [hsplit] at hpw
    have hpw2 := (List.pairwise_append.mp hpw).2.1
    rw [List.mem_cons] at hmem
    rcases hmem with hmem | hmem
    · rw [hmem] at hlen
      omega
    · have := List.rel_of_pairwise_cons hpw2 hmem
      omega

/-! Lemmas about one _update_faces_dict_entry call. -/

theorem modifyDict_oob (fd : List Dict) (i : Nat) (f : Dict → Dict)
    (h : fd.length ≤ i) : modifyDict fd i f = fd := by
  induction fd generalizing i with
  | nil => rfl
  | cons d rest ih =>
    cases i with
    | zero => simp at h
    | succ j =>
      simp only [modifyDict]
      rw [ih j (by simpa using h)]

theorem addKey_ne_nil (l : List Key) (k : Key) : addKey l k ≠ [] := by
  unfold addKey
  by_cases h : k ∈ l
  · simp [h]
    intro hl
    rw [hl] at h
    exact absurd h (List.not_mem_nil k)
  · simp [h]

theorem mem_addKey (l : List Key) (k : Key) (x : Key) :
    x ∈ addKey l k ↔ x ∈ l ∨ x = k := by
  unfold addKey
  by_cases h : k ∈ l
  · simp only [if_pos h]
    constructor
    · exact Or.inl
    · rintro (hx | hx)
      · exact hx
      · rw [hx]; exact h
  · simp [h]

theorem addKey_eq_append (l : List Key) (k : Key) (h : k ∉ l) :
    addKey l k = l ++ [k] := by
  unfold addKey
  simp [h]

theorem entry_length (fd : List Dict) (face simplex_ : Key) (mf : List Key)
    (attr : Props) :
    ((updateFacesDictEntry fd face simplex_ mf attr).1).length = fd.length := by
  unfold updateFacesDictEntry
  cases h : dlookup (getDict fd (face.length - 1)) face with
  | none =>
    simp only [h]
    by_cases h1 : face.length = simplex_.length
    · rw [if_pos h1]
      exact length_modifyDict fd _ _
    · rw [if_neg h1]
      exact length_modifyDict fd _ _
  | some r =>
    simp only [h]
    by_cases h1 : face.length ≠ simplex_.length
    · rw [if_pos h1]
      by_cases h2 : r.is_maximal = true
      · rw [if_pos h2]
        exact length_modifyDict fd _ _
      · rw [if_neg h2]
        exact length_modifyDict fd _ _
    · rw [if_neg h1]
      exact length_modifyDict fd _ _

theorem entry_flookup_ne (fd : List Dict) (face simplex_ : Key) (mf : List Key)
    (attr : Props) (g : Key) (hface : face <+ simplex_) (hg : g ≠ face) :
    flookup (updateFacesDictEntry fd face simplex_ mf attr).1 g = flookup fd g := by
  have hmain : ∀ (F : Dict → Dict),
      (∀ d, dlookup (F d) g = dlookup d g) →
      flookup (modifyDict fd (face.length - 1) F) g = flookup fd g := by
    intro F hF
    unfold flookup
    by_cases hij : face.length - 1 = g.length - 1
    · rw [← hij]
      by_cases hin : face.length - 1 < fd.length
      · rw [getDict_modifyDict_self fd _ F hin, hF]
      · rw [modifyDict_oob fd _ F (by omega)]
    · rw [getDict_modifyDict_ne fd _ _ F hij]
  unfold updateFacesDictEntry
  cases h : dlookup (getDict fd (face.length - 1)) face with
  | none =>
    simp only [h]
    by_cases h1 : face.length = simplex_.length
    · rw [if_pos h1]
      exact hmain _ (fun d => dlookup_dset_ne d face g _ hg)
    · rw [if_neg h1]
      exact hmain _ (fun d => dlookup_dset_ne d face g _ hg)
  | some r =>
    simp only [h]
    by_cases h1 : face.length ≠ simplex_.length
    · rw [if_pos h1]
      by_cases h2 : r.is_maximal = true
      · rw [if_pos h2]
        exact hmain _ (fun d => dlookup_dset_ne d face g _ hg)
      · rw [if_neg h2]
        exact hmain _ (fun d => dlookup_dset_ne d face g _ hg)
    · have hfs : face = simplex_ := by
        rw [not_not] at h1
        exact hface.eq_of_length h1
      rw [if_neg h1]
      refine hmain _ (fun d => ?_)
      cases h2 : dlookup d simplex_ with
      | none => rfl
      | some r0 =>
        rw [← hfs]
        exact dlookup_dset_ne d face g _ hg




theorem flookup_modify_dset (fd : List Dict) (k : Key) (r : Rec)
    (hin : k.length - 1 < fd.length) :
    flookup (modifyDict fd (k.length - 1) (fun d => dset d k r)) k = some r := by
  unfold flookup
  rw [getDict_modifyDict_self fd _ _ hin]
  exact dlookup_dset_self _ k r

/-! Branch equations for _update_faces_dict_entry. -/

theorem entry_eq_absent_full (fd : List Dict) (face simplex_ : Key)
    (mf : List Key) (attr : Props)
    (h : flookup fd face = none) (h1 : face.length = simplex_.length) :
    updateFacesDictEntry fd face simplex_ mf attr =
      (modifyDict fd (face.length - 1) (fun d => dset d face ⟨true, [], []⟩), mf) := by
  unfold flookup at h
  unfold updateFacesDictEntry
  simp only [h]
  rw [if_pos h1]

theorem entry_eq_absent_proper (fd : List Dict) (face simplex_ : Key)
    (mf : List Key) (attr : Props)
    (h : flookup fd face = none) (h1 : face.length ≠ simplex_.length) :
    updateFacesDictEntry fd face simplex_ mf attr =
      (modifyDict fd (face.length - 1)
        (fun d => dset d face ⟨false, [simplex_], []⟩), mf) := by
  unfold flookup at h
  unfold updateFacesDictEntry
  simp only [h]
  rw [if_neg h1]

theorem entry_eq_demote (fd : List Dict) (face simplex_ : Key)
    (mf : List Key) (attr : Props) (r : Rec)
    (h : flookup fd face = some r) (h1 : face.length ≠ simplex_.length)
    (h2 : r.is_maximal = true) :
    updateFacesDictEntry fd face simplex_ mf attr =
      (modifyDict fd (face.length - 1)
        (fun d => dset d face ⟨false, addKey r.membership simplex_, r.props⟩),
       addKey mf face) := by
  unfold flookup at h
  unfold updateFacesDictEntry
  simp only [h]
  rw [if_pos h1, if_pos h2]

theorem entry_eq_cleanup (fd : List Dict) (face simplex_ : Key)
    (mf : List Key) (attr : Props) (r : Rec)
    (h : flookup fd face = some r) (h1 : face.length ≠ simplex_.length)
    (h2 : r.is_maximal = false) :
    updateFacesDictEntry fd face simplex_ mf attr =
      (modifyDict fd (face.length - 1)
        (fun d => dset d face
          ⟨false, addKey (r.membership.filter (fun f => decide (f ∉ mf))) simplex_,
           r.props⟩), mf) := by
  unfold flookup at h
  unfold updateFacesDictEntry
  simp only [h]
  rw [if_pos h1, if_neg (by rw [h2]; exact Bool.false_ne_true)]

theorem entry_eq_same_len (fd : List Dict) (face simplex_ : Key)
    (mf : List Key) (attr : Props) (r : Rec)
    (h : flookup fd face = some r) (h1 : face.length = simplex_.length) :
    updateFacesDictEntry fd face simplex_ mf attr =
      (modifyDict fd (face.length - 1) (fun d =>
        match dlookup d simplex_ with
        | some r0 =>
          dset d simplex_ ⟨r0.is_maximal, r0.membership, updateProps r0.props attr⟩
        | none => d), mf) := by
  unfold flookup at h
  unfold updateFacesDictEntry
  simp only [h]
  rw [if_neg (by rw [not_not]; exact h1)]


/-! Branch equations for insert_simplex and remove_maximal_simplex. -/

theorem insertSimplex_eq_dup (S : SV) (xs : List Nat) (attr : Props)
    (h : (canon xs).length ≠ xs.length) :
    insertSimplex S xs attr = (S, some .dupNodes) := by
  unfold insertSimplex
  rw [if_pos h]

theorem insertSimplex_eq_empty (S : SV) (xs : List Nat) (attr : Props)
    (h : (canon xs).length = xs.length) (h2 : (canon xs).isEmpty) :
    insertSimplex S xs attr =
      (S, some (if S.faces_dict.isEmpty then .indexError else .keyAbsent)) := by
  unfold insertSimplex
  rw [if_neg (by rw [not_not]; exact h), if_pos h2]

theorem insertSimplex_eq_present (S : SV) (xs : List Nat) (attr : Props) (r : Rec)
    (h : (canon xs).length = xs.length) (h2 : ¬ (canon xs).isEmpty)
    (hlk : flookup (updateFacesDictLength S.faces_dict (canon xs).length)
      (canon xs) = some r) :
    insertSimplex S xs attr =
      ((⟨S.max_dim,
         modifyDict (updateFacesDictLength S.faces_dict (canon xs).length)
           ((canon xs).length - 1)
           (fun d => dset d (canon xs)
             ⟨r.is_maximal, r.membership, updateProps r.props attr⟩)⟩ : SV), none) := by
  unfold flookup at hlk
  unfold insertSimplex
  rw [if_neg (by rw [not_not]; exact h), if_neg h2]
  simp only [hlk]

theorem insertSimplex_eq_main (S : SV) (xs : List Nat) (attr : Props)
    (h : (canon xs).length = xs.length) (h2 : ¬ (canon xs).isEmpty)
    (hlk : flookup (updateFacesDictLength S.faces_dict (canon xs).length)
      (canon xs) = none) :
    insertSimplex S xs attr =
      ((⟨(if S.max_dim < (xs.length : Int) - 1 then (xs.length : Int) - 1
          else S.max_dim),
         modifyDict
           ((facesDesc (canon xs)).foldl
             (fun acc face => updateFacesDictEntry acc.1 face (canon xs) acc.2 attr)
             (updateFacesDictLength S.faces_dict (canon xs).length,
              ([] : List Key))).1
           ((canon xs).length - 1)
           (fun d =>
             match dlookup d (canon xs) with
             | some r0 =>
               dset d (canon xs)
                 ⟨r0.is_maximal, r0.membership, updateProps r0.props attr⟩
             | none => d)⟩ : SV), none) := by
  unfold flookup at hlk
  unfold insertSimplex
  rw [if_neg (by rw [not_not]; exact h), if_neg h2]
  simp only [hlk]


theorem removeMaximalSimplex_eq_idxErr (S : SV) (xs : List Nat)
    (h : pyIdx S.faces_dict (((canon xs).length : Int) - 1) = none) :
    removeMaximalSimplex S xs = (S, some .indexError) := by
  unfold removeMaximalSimplex
  simp only [h]

theorem removeMaximalSimplex_eq_absent (S : SV) (xs : List Nat) (d : Dict)
    (h : pyIdx S.faces_dict (((canon xs).length : Int) - 1) = some d)
    (h2 : dlookup d (canon xs) = none) :
    removeMaximalSimplex S xs = (S, some .keyAbsent) := by
  unfold removeMaximalSimplex
  simp only [h, h2]

theorem removeMaximalSimplex_eq_notMax (S : SV) (xs : List Nat) (d : Dict) (r : Rec)
    (h : pyIdx S.faces_dict (((canon xs).length : Int) - 1) = some d)
    (h2 : dlookup d (canon xs) = some r) (h3 : r.is_maximal = false) :
    removeMaximalSimplex S xs = (S, some .notMaximal) := by
  unfold removeMaximalSimplex
  simp only [h, h2]
  rw [if_neg (by rw [h3]; exact Bool.false_ne_true)]

theorem removeMaximalSimplex_eq_err (S : SV) (xs : List Nat) (d : Dict) (r : Rec)
    (fd1 : List Dict) (e : PyErr)
    (h : pyIdx S.faces_dict (((canon xs).length : Int) - 1) = some d)
    (h2 : dlookup d (canon xs) = some r) (h3 : r.is_maximal = true)
    (h4 : cascadeFold
      (modifyDict S.faces_dict ((canon xs).length - 1)
        (fun d0 => derase d0 (canon xs))) (canon xs) xs.length = (fd1, some e)) :
    removeMaximalSimplex S xs = ((⟨S.max_dim, fd1⟩ : SV), some e) := by
  unfold removeMaximalSimplex
  simp only [h, h2]
  rw [if_pos h3]
  simp only [h4]

theorem removeMaximalSimplex_eq_ok_erase (S : SV) (xs : List Nat) (d : Dict) (r : Rec)
    (fd1 : List Dict)
    (h : pyIdx S.faces_dict (((canon xs).length : Int) - 1) = some d)
    (h2 : dlookup d (canon xs) = some r) (h3 : r.is_maximal = true)
    (h4 : cascadeFold
      (modifyDict S.faces_dict ((canon xs).length - 1)
        (fun d0 => derase d0 (canon xs))) (canon xs) xs.length = (fd1, none))
    (h5 : (getDict fd1 ((canon xs).length - 1)).length = 0 ∧
      ((canon xs).length : Int) - 1 = S.max_dim) :
    removeMaximalSimplex S xs =
      ((⟨((fd1.eraseIdx ((canon xs).length - 1)).length : Int) - 1,
         fd1.eraseIdx ((canon xs).length - 1)⟩ : SV), none) := by
  unfold removeMaximalSimplex
  simp only [h, h2]
  rw [if_pos h3]
  simp only [h4]
  rw [if_pos h5]

theorem removeMaximalSimplex_eq_ok_keep (S : SV) (xs : List Nat) (d : Dict) (r : Rec)
    (fd1 : List Dict)
    (h : pyIdx S.faces_dict (((canon xs).length : Int) - 1) = some d)
    (h2 : dlookup d (canon xs) = some r) (h3 : r.is_maximal = true)
    (h4 : cascadeFold
      (modifyDict S.faces_dict ((canon xs).length - 1)
        (fun d0 => derase d0 (canon xs))) (canon xs) xs.length = (fd1, none))
    (h5 : ¬ ((getDict fd1 ((canon xs).length - 1)).length = 0 ∧
      ((canon xs).length : Int) - 1 = S.max_dim)) :
    removeMaximalSimplex S xs = ((⟨S.max_dim, fd1⟩ : SV), none) := by
  unfold removeMaximalSimplex
  simp only [h, h2]
  rw [if_pos h3]
  simp only [h4]
  rw [if_neg h5]


/-! Counterexample theorems for the claims the code falsifies. -/

/-- C1 counterexample: after the call sequence insert_simplex((1,2,3));
remove_maximal_simplex((1,2,3)) on a fresh view, the stored record of node 1
has is_maximal = false together with an empty membership set, because the
removal restores maximality only on faces of codimension one. So Invariant I2
(is_maximal iff membership is empty) does not hold after every insert/delete
sequence, refuting the claim as stated. -/
theorem C1_counterexample :
    svLookup viewTriRemoved [1] = some ⟨false, [], []⟩ ∧
      ¬ ((false : Bool) = true ↔ ([] : List Key) = []) :=
  ⟨by decide, by decide⟩

/-- C2 counterexample: after the single call insert_simplex((1,2,3)) on a
fresh view, the edge (1,2) is stored and node (1) is a face of it, yet (1,2)
is not an element of the membership set of (1): membership only records the
maximal simplex (1,2,3). This refutes the claim that every stored E lies in
the membership of each of its faces. -/
theorem C2_counterexample :
    svLookup viewTri [1, 2] = some ⟨false, [[1, 2, 3]], []⟩ ∧
    svLookup viewTri [1] = some ⟨false, [[1, 2, 3]], []⟩ ∧
    ([1, 2] : Key) ∉ ([[1, 2, 3]] : List Key) :=
  ⟨by decide, by decide, by decide⟩

/-- C3 counterexample: with S the empty view (reachable by the empty insert
sequence) and x = (1,2) disjoint from everything stored, insert_simplex(x)
followed by remove_maximal_simplex(x) raises nothing but does not restore S:
the proper faces (1) and (2) of x remain stored as maximal nodes. -/
theorem C3_counterexample :
    (insertSimplex emptySV [1, 2] []).2 = none ∧
    (removeMaximalSimplex (insertSimplex emptySV [1, 2] []).1 [1, 2]).2 = none ∧
    (removeMaximalSimplex (insertSimplex emptySV [1, 2] []).1 [1, 2]).1 ≠ emptySV :=
  ⟨by decide, by decide, by decide⟩

/-- C4 counterexample: the Simplex built from the two distinct elements 1, 2
has its own node set, of size k = 2, among the faces enumerated by the faces
property, because construct_simplex_tree runs r = numnodes, ..., 1 including
r = numnodes. This refutes the claim that no face of size k is yielded. -/
theorem C4_counterexample :
    mkSimplex 0 [1, 2] "" true [] = .ok simplexPair ∧
    simplexPair.nodes ∈ simplexFaces simplexPair ∧
    simplexPair.nodes.length = 2 :=
  ⟨rfl, by decide, by decide⟩

/-- C5 counterexample: for the Simplex on nodes 1, 2, 3, the sub-collection
(1,2) of its elements is rejected by the membership test (the code returns
false for every iterable whose length is not 1), and the bare element 2 is
also rejected (the code tests whether the one-element frozenset of 2 is
itself a node). This refutes the claim that the test accepts every single
element and every non-empty sub-collection. -/
theorem C5_counterexample :
    mkSimplex 0 [1, 2, 3] "" true [] = .ok simplexTri ∧
    simplexContains simplexTri (.coll [1, 2]) = false ∧
    ([1, 2] : List Nat) ⊆ simplexTri.nodes ∧
    simplexContains simplexTri (.node 2) = false ∧
    2 ∈ simplexTri.nodes :=
  ⟨rfl, by decide, by decide, by decide, by decide⟩

/-- C7 counterexample: the Simplex class defines neither an equality nor a
hash method, so comparison falls back to object identity. The two objects
built from (1,2) and (2,1) have the same canonical key yet compare unequal
under Python ==, refuting the claim that equality is defined on the canonical
key. -/
theorem C7_counterexample :
    mkSimplex 0 [1, 2] "" true [] = .ok simplexPair ∧
    mkSimplex 1 [2, 1] "" true [] = .ok simplexPair1 ∧
    simplexPair.nodes = simplexPair1.nodes ∧
    simplexPyEq simplexPair simplexPair1 = false :=
  ⟨rfl, rfl, by decide, by decide⟩

/-- C8 counterexample: on a view holding only node 1, looking up the absent
bare node 5 returns None (the fall-through of __getitem__), and looking up an
absent Simplex object whose dimension slot exists also returns None; neither
raises a key-missing error, refuting the claim that every absent key raises. -/
theorem C8_counterexample :
    svLookup viewNode [5] = none ∧
    svGetItem viewNode (.node 5) = .ok none ∧
    svGetItem viewNode (.obj simplexNode5) = .ok none :=
  ⟨by decide, rfl, rfl⟩

/-- C9 counterexample: starting from the reachable state viewTriRemoved (a
fresh view after inserting and removing the triangle (1,2,3)), the call
remove_maximal_simplex((1,2)) raises a KeyError from inside its face-repair
loop (set.remove of the key (1,2) from the already-empty membership of node
(1)) after it has already deleted the record of (1,2): the stored state after
the failed call differs from the state before it, refuting the claim that a
failed call never mutates the store. -/
theorem C9_counterexample :
    (removeMaximalSimplex viewTriRemoved [1, 2]).2 = some .cascadeKey ∧
    (removeMaximalSimplex viewTriRemoved [1, 2]).1 ≠ viewTriRemoved :=
  ⟨by decide, by decide⟩


/-! Amended-claim theorems for the entity class and item access. -/

theorem mkSimplex_ok (oid : Nat) (xs : List Nat) (nm : String) (ct : Bool)
    (attr : Props) (s : PySimplex) (h : mkSimplex oid xs nm ct attr = .ok s) :
    xs.Nodup ∧
    s = ⟨oid, nm, canon xs, ct, if ct then facesDesc (canon xs) else [], attr⟩ := by
  unfold mkSimplex at h
  by_cases hd : (canon xs).length ≠ xs.length
  · rw [if_pos hd] at h
    exact absurd h (by simp)
  · rw [if_neg hd] at h
    rw [not_not] at hd
    refine ⟨(canon_length_eq_iff xs).mp hd, ?_⟩
    injection h with h2
    exact h2.symm

theorem canon_eq_of_toFinset (xs ys : List Nat) (h : xs.toFinset = ys.toFinset) :
    canon xs = canon ys := by
  refine sorted_eq_of_subset_subset _ _ (canon_sorted xs) (canon_sorted ys) ?_ ?_
  · intro a ha
    rw [canon_mem] at ha
    rw [canon_mem]
    have h1 : a ∈ xs.toFinset := List.mem_toFinset.mpr ha
    rw [h] at h1
    exact List.mem_toFinset.mp h1
  · intro a ha
    rw [canon_mem] at ha
    rw [canon_mem]
    have h1 : a ∈ ys.toFinset := List.mem_toFinset.mpr ha
    rw [← h] at h1
    exact List.mem_toFinset.mp h1

theorem simplexContains_coll (s : PySimplex) (l : List Nat) :
    simplexContains s (.coll l) =
      if s.nodes.length = 0 then false
      else if l.length ≠ 1 then false
      else l.all (fun x => decide (x ∈ s.nodes)) := by
  unfold simplexContains
  by_cases h : s.nodes.length = 0
  · rw [if_pos h]
  · rw [if_neg h]

theorem simplexContains_node (s : PySimplex) (n : Nat) :
    simplexContains s (.node n) = false := by
  unfold simplexContains
  by_cases h : s.nodes.length = 0
  · rw [if_pos h]
  · rw [if_neg h]

/-- C5 (amended): for every Simplex built from a non-empty duplicate-free
collection, the membership test returns true exactly for the iterables of
length one whose element is a node of the simplex; every sub-collection of
length different from one is rejected, and a bare hashable element is always
rejected, because the code compares the one-element frozenset of the element
against the integer nodes of the simplex. -/
theorem C5_contains_characterization (oid : Nat) (xs : List Nat) (nm : String)
    (ct : Bool) (attr : Props) (s : PySimplex)
    (h : mkSimplex oid xs nm ct attr = .ok s) (hne : xs ≠ []) :
    (∀ l : List Nat, simplexContains s (.coll l) = true ↔
       l.length = 1 ∧ ∀ x ∈ l, x ∈ s.nodes) ∧
    (∀ n : Nat, simplexContains s (.node n) = false) := by
  obtain ⟨hnd, hs⟩ := mkSimplex_ok oid xs nm ct attr s h
  have hnodes : s.nodes = canon xs := by rw [hs]
  have hlen : (canon xs).length = xs.length := canon_of_nodup_length xs hnd
  have hpos : s.nodes.length ≠ 0 := by
    rw [hnodes, hlen]
    intro h0
    exact hne (List.length_eq_zero.mp h0)
  constructor
  · intro l
    rw [simplexContains_coll, if_neg hpos]
    by_cases hl : l.length ≠ 1
    · rw [if_pos hl]
      simp only [Bool.false_eq_true, false_iff, not_and]
      intro h1
      exact absurd h1 hl
    · rw [if_neg hl]
      rw [not_not] at hl
      rw [List.all_eq_true]
      constructor
      · intro hall
        refine ⟨hl, ?_⟩
        intro x hx
        exact of_decide_eq_true (hall x hx)
      · intro hall x hx
        exact decide_eq_true (hall.2 x hx)
  · intro n
    exact simplexContains_node s n

/-- C7 (amended): two Simplex objects built from element collections with the
same underlying node set always carry equal canonical keys (their node
frozensets coincide) regardless of names and attribute dicts; but the objects
themselves compare equal under Python == exactly when they are the same
object, because the class defines neither an equality nor a hash method. -/
theorem C7_canonical_keys (oid1 oid2 : Nat) (xs ys : List Nat)
    (nm1 nm2 : String) (ct1 ct2 : Bool) (a1 a2 : Props) (s t : PySimplex)
    (h1 : mkSimplex oid1 xs nm1 ct1 a1 = .ok s)
    (h2 : mkSimplex oid2 ys nm2 ct2 a2 = .ok t)
    (hset : xs.toFinset = ys.toFinset) :
    s.nodes = t.nodes ∧ (simplexPyEq s t = true ↔ s.objId = t.objId) := by
  obtain ⟨_, hs⟩ := mkSimplex_ok oid1 xs nm1 ct1 a1 s h1
  obtain ⟨_, ht⟩ := mkSimplex_ok oid2 ys nm2 ct2 a2 t h2
  have hsn : s.nodes = canon xs := by rw [hs]
  have htn : t.nodes = canon ys := by rw [ht]
  constructor
  · rw [hsn, htn]
    exact canon_eq_of_toFinset xs ys hset
  · unfold simplexPyEq
    exact beq_iff_eq

/-- C8 (amended): __getitem__ raises a key-missing error only for the
iterable form of an absent key whose dimension slot exists; an absent Simplex
object whose dimension slot exists returns None, an absent bare node returns
None, and an iterable whose dimension slot does not exist raises IndexError
instead of KeyError. -/
theorem C8_getitem_characterization (S : SV) :
    (∀ (l : List Nat) (d : Dict),
      pyIdx S.faces_dict (((canon l).length : Int) - 1) = some d →
      dlookup d (canon l) = none →
      svGetItem S (.coll l) = .error .keyAbsent) ∧
    (∀ (s : PySimplex) (d : Dict),
      pyIdx S.faces_dict ((s.nodes.length : Int) - 1) = some d →
      dlookup d s.nodes = none →
      svGetItem S (.obj s) = .ok none) ∧
    (∀ (l : List Nat),
      pyIdx S.faces_dict (((canon l).length : Int) - 1) = none →
      svGetItem S (.coll l) = .error .indexError) ∧
    (∀ n : Nat,
      (∀ d0, S.faces_dict.head? = some d0 → dlookup d0 [n] = none) →
      svGetItem S (.node n) = .ok none) := by
  refine ⟨?_, ?_, ?_, ?_⟩
  · intro l d hidx hlk
    unfold svGetItem
    simp only [hidx, hlk]
  · intro s d hidx hlk
    unfold svGetItem
    simp only [hidx, hlk]
  · intro l hidx
    unfold svGetItem
    simp only [hidx]
  · intro n hd
    unfold svGetItem
    cases hh : S.faces_dict.head? with
    | none => simp only []
    | some d0 =>
      simp only []
      by_cases hm : S.max_dim < 0
      · rw [if_pos hm]
      · rw [if_neg hm]
        rw [hd d0 hh]


/-! Counting lemmas for the face enumeration, and the amended C4. -/

theorem filter_len_blocks (k : Key) (r : Nat) (hr : 1 ≤ r) :
    ∀ L : List Nat, L.Nodup →
      (((L.map (fun i => List.sublistsLen (i + 1) k)).flatten).filter
          (fun f => decide (f.length = r))).length
        = if r - 1 ∈ L then Nat.choose k.length r else 0 := by
  intro L
  induction L with
  | nil => intro _; simp
  | cons i L ih =>
    intro hnd
    simp only [List.map_cons, List.flatten_cons, List.filter_append,
      List.length_append]
    rw [ih hnd.of_cons]
    by_cases hir : i + 1 = r
    · have hblock : (List.sublistsLen (i + 1) k).filter
          (fun f => decide (f.length = r)) = List.sublistsLen (i + 1) k := by
        refine List.filter_eq_self.mpr ?_
        intro f hf
        rw [List.mem_sublistsLen] at hf
        simp [hf.2, hir]
      rw [hblock, List.length_sublistsLen, hir]
      have hieq : r - 1 = i := by omega
      have hnotin : r - 1 ∉ L := by
        rw [hieq]
        exact (List.nodup_cons.mp hnd).1
      rw [if_neg hnotin]
      have hin : r - 1 ∈ i :: L := by
        rw [hieq]
        exact List.mem_cons_self i L
      rw [if_pos hin]
      omega
    · have hblock : (List.sublistsLen (i + 1) k).filter
          (fun f => decide (f.length = r)) = [] := by
        rw [List.filter_eq_nil_iff]
        intro f hf
        rw [List.mem_sublistsLen] at hf
        simp [hf.2, hir]
      rw [hblock]
      simp only [List.length_nil, Nat.zero_add]
      have hiff : (r - 1 ∈ i :: L) ↔ (r - 1 ∈ L) := by
        rw [List.mem_cons]
        constructor
        · rintro (h | h)
          · omega
          · exact h
        · exact Or.inr
      rw [if_congr hiff rfl rfl]

theorem facesDesc_count_len (k : Key) (r : Nat) (hr : 1 ≤ r) :
    ((facesDesc k).filter (fun f => decide (f.length = r))).length
      = Nat.choose k.length r := by
  unfold facesDesc
  rw [filter_len_blocks k r hr _ (List.nodup_reverse.mpr (List.nodup_range _))]
  by_cases hmem : r - 1 ∈ (List.range k.length).reverse
  · rw [if_pos hmem]
  · rw [if_neg hmem]
    rw [List.mem_reverse, List.mem_range] at hmem
    have hlt : k.length < r := by omega
    rw [Nat.choose_eq_zero_of_lt hlt]

/-- C4 (amended): for every Simplex constructed from k distinct elements, the
faces enumeration yields exactly C(k,r) faces of each size r with 1 ≤ r (and
hence C(k,r) = 0 faces of any size above k); contrary to the original claim
this includes size k itself, the simplex being its own unique full-size face
whenever k is at least one. -/
theorem C4_faces_counts (oid : Nat) (xs : List Nat) (nm : String) (attr : Props)
    (s : PySimplex) (h : mkSimplex oid xs nm true attr = .ok s) :
    (∀ r : Nat, 1 ≤ r →
      ((simplexFaces s).filter (fun f => decide (f.length = r))).length
        = Nat.choose xs.length r) ∧
    (xs ≠ [] → s.nodes ∈ simplexFaces s) := by
  obtain ⟨hnd, hs⟩ := mkSimplex_ok oid xs nm true attr s h
  have hfaces : simplexFaces s = facesDesc (canon xs) := by
    rw [hs]
    simp [simplexFaces]
  have hnodes : s.nodes = canon xs := by rw [hs]
  have hlen : (canon xs).length = xs.length := canon_of_nodup_length xs hnd
  constructor
  · intro r hr
    rw [hfaces, facesDesc_count_len (canon xs) r hr, hlen]
  · intro hne
    rw [hfaces, hnodes, mem_facesDesc]
    refine ⟨List.Sublist.refl _, ?_⟩
    intro h0
    have : (canon xs).length = 0 := by rw [h0]; rfl
    rw [hlen] at this
    exact hne (List.length_eq_zero.mp this)

/-- C4 witness: the amended count and self-membership checked on the concrete
two-element simplex (1,2). -/
theorem C4_witness :
    ((simplexFaces simplexPair).filter (fun f => decide (f.length = 1))).length
      = Nat.choose 2 1 ∧
    simplexPair.nodes ∈ simplexFaces simplexPair :=
  ⟨(C4_faces_counts 0 [1, 2] "" [] simplexPair rfl).1 1 (by decide),
   (C4_faces_counts 0 [1, 2] "" [] simplexPair rfl).2 (by decide)⟩

/-! The amended C9: error atomicity outside the repair cascade. -/

theorem cascadeStep_err (fd : List Dict) (s_ : Key) (n : Nat) (s : Key) (e : PyErr)
    (h : cascadeStep fd s_ n s = .error e) : e = .cascadeKey := by
  unfold cascadeStep at h
  cases h1 : dlookup (getDict fd (s.length - 1)) s with
  | none =>
    simp only [h1] at h
    injection h with h2
    exact h2.symm
  | some r =>
    simp only [h1] at h
    cases h2 : removeKey r.membership s_ with
    | none =>
      simp only [h2] at h
      injection h with h3
      exact h3.symm
    | some m =>
      simp only [h2] at h
      exact absurd h (by simp)

theorem cascadeFold_err_aux (s_ : Key) (n : Nat) :
    ∀ (l : List Key) (acc : List Dict × Option PyErr),
      (acc.2 = none ∨ acc.2 = some .cascadeKey) →
      ((l.foldl (fun (acc : List Dict × Option PyErr) s =>
          match acc.2 with
          | some _ => acc
          | none =>
            match cascadeStep acc.1 s_ n s with
            | .ok fd1 => (fd1, none)
            | .error e => (acc.1, some e)) acc).2 = none ∨
       (l.foldl (fun (acc : List Dict × Option PyErr) s =>
          match acc.2 with
          | some _ => acc
          | none =>
            match cascadeStep acc.1 s_ n s with
            | .ok fd1 => (fd1, none)
            | .error e => (acc.1, some e)) acc).2 = some .cascadeKey)
  | [], acc, h => h
  | s :: rest, acc, h => by
    simp only [List.foldl_cons]
    apply cascadeFold_err_aux s_ n rest
    cases hacc : acc.2 with
    | none =>
      simp only [hacc]
      cases hstep : cascadeStep acc.1 s_ n s with
      | ok fd1 =>
        simp [hstep]
      | error e =>
        have he := cascadeStep_err acc.1 s_ n s e hstep
        simp [hstep, he]
    | some e =>
      simp only [hacc]
      rcases h with h | h
      · rw [hacc] at h
        exact absurd h (by simp)
      · rw [hacc] at h
        exact Or.inr h

theorem cascadeFold_err (fd0 : List Dict) (s_ : Key) (n : Nat) (fd1 : List Dict)
    (e : PyErr) (h : cascadeFold fd0 s_ n = (fd1, some e)) : e = .cascadeKey := by
  unfold cascadeFold at h
  have := cascadeFold_err_aux s_ n (properFaces s_) (fd0, none) (Or.inl rfl)
  rw [h] at this
  rcases this with h1 | h1
  · exact absurd h1 (by simp)
  · exact Option.some.inj h1


/-- C9 (amended): every error raised by insert_simplex leaves the stored
state unchanged, and every error raised by remove_maximal_simplex other than
the KeyError raised inside the face-repair cascade leaves the stored state
unchanged; a cascade KeyError can leave the already-deleted record deleted,
as the counterexample shows. -/
theorem C9_errors_leave_state (S : SV) (xs : List Nat) (attr : Props) :
    (∀ e, (insertSimplex S xs attr).2 = some e →
      (insertSimplex S xs attr).1 = S) ∧
    (∀ e, (removeMaximalSimplex S xs).2 = some e → e ≠ .cascadeKey →
      (removeMaximalSimplex S xs).1 = S) := by
  constructor
  · intro e he
    by_cases h1 : (canon xs).length ≠ xs.length
    · rw [insertSimplex_eq_dup S xs attr h1]
    · rw [not_not] at h1
      by_cases h2 : (canon xs).isEmpty
      · rw [insertSimplex_eq_empty S xs attr h1 h2]
      · cases h3 : flookup (updateFacesDictLength S.faces_dict (canon xs).length)
            (canon xs) with
        | some r =>
          rw [insertSimplex_eq_present S xs attr r h1 h2 h3] at he
          exact absurd he (by simp)
        | none =>
          rw [insertSimplex_eq_main S xs attr h1 h2 h3] at he
          exact absurd he (by simp)
  · intro e he hnc
    cases h1 : pyIdx S.faces_dict (((canon xs).length : Int) - 1) with
    | none => rw [removeMaximalSimplex_eq_idxErr S xs h1]
    | some d =>
      cases h2 : dlookup d (canon xs) with
      | none => rw [removeMaximalSimplex_eq_absent S xs d h1 h2]
      | some r =>
        cases h3 : r.is_maximal with
        | false => rw [removeMaximalSimplex_eq_notMax S xs d r h1 h2 h3]
        | true =>
          rcases h4 : cascadeFold
            (modifyDict S.faces_dict ((canon xs).length - 1)
              (fun d0 => derase d0 (canon xs))) (canon xs) xs.length with ⟨fd1, o⟩
          cases o with
          | none =>
            by_cases h5 : (getDict fd1 ((canon xs).length - 1)).length = 0 ∧
                ((canon xs).length : Int) - 1 = S.max_dim
            · rw [removeMaximalSimplex_eq_ok_erase S xs d r fd1 h1 h2 h3 h4 h5] at he
              exact absurd he (by simp)
            · rw [removeMaximalSimplex_eq_ok_keep S xs d r fd1 h1 h2 h3 h4 h5] at he
              exact absurd he (by simp)
          | some e2 =>
            rw [removeMaximalSimplex_eq_err S xs d r fd1 e2 h1 h2 h3 h4] at he
            have he2 : e = e2 := (Option.some.inj he).symm
            have hck : e2 = .cascadeKey := cascadeFold_err _ _ _ _ _ h4
            rw [he2, hck] at hnc
            exact absurd rfl hnc

/-- C9 witness: a duplicate-node insert error and an out-of-range remove
error, both observed to leave the empty view unchanged. -/
theorem C9_witness :
    (insertSimplex emptySV [1, 1] []).2 = some .dupNodes ∧
    (insertSimplex emptySV [1, 1] []).1 = emptySV ∧
    (removeMaximalSimplex emptySV [1]).2 = some .indexError ∧
    (removeMaximalSimplex emptySV [1]).1 = emptySV :=
  ⟨by decide,
   (C9_errors_leave_state emptySV [1, 1] []).1 .dupNodes (by decide),
   by decide,
   (C9_errors_leave_state emptySV [1] []).2 .indexError (by decide) (by decide)⟩


/-- C5 witness: the characterization applied to the concrete simplex (1,2,3),
the length-one collection (2) and the bare node 5. -/
theorem C5_witness :
    (simplexContains simplexTri (.coll [2]) = true ↔
      ([2] : List Nat).length = 1 ∧ ∀ x ∈ ([2] : List Nat), x ∈ simplexTri.nodes) ∧
    simplexContains simplexTri (.node 5) = false :=
  ⟨(C5_contains_characterization 0 [1, 2, 3] "" true [] simplexTri rfl
      (by decide)).1 [2],
   (C5_contains_characterization 0 [1, 2, 3] "" true [] simplexTri rfl
      (by decide)).2 5⟩

/-- C7 witness: the canonical-key equality and identity comparison applied to
the concrete objects built from (1,2) and (2,1). -/
theorem C7_witness :
    simplexPair.nodes = simplexPair1.nodes ∧
    (simplexPyEq simplexPair simplexPair1 = true ↔
      simplexPair.objId = simplexPair1.objId) :=
  C7_canonical_keys 0 1 [1, 2] [2, 1] "" "" true true [] [] simplexPair
    simplexPair1 rfl rfl (by decide)

/-- C8 witness: the four access behaviours observed on the concrete view
holding only node 1. -/
theorem C8_witness :
    svGetItem viewNode (.coll [2]) = .error .keyAbsent ∧
    svGetItem viewNode (.obj simplexNode5) = .ok none ∧
    svGetItem viewNode (.coll [1, 2]) = .error .indexError ∧
    svGetItem viewNode (.node 5) = .ok none := by
  refine ⟨?_, ?_, ?_, ?_⟩
  · exact (C8_getitem_characterization viewNode).1 [2]
      [([1], ⟨true, [], []⟩)] (by decide) (by decide)
  · exact (C8_getitem_characterization viewNode).2.1 simplexNode5
      [([1], ⟨true, [], []⟩)] (by decide) (by decide)
  · exact (C8_getitem_characterization viewNode).2.2.1 [1, 2] (by decide)
  · refine (C8_getitem_characterization viewNode).2.2.2 5 ?_
    intro d0 hd0
    have h0 : viewNode.faces_dict.head? = some [([1], (⟨true, [], []⟩ : Rec))] := rfl
    rw [h0] at hd0
    rw [(Option.some.inj hd0).symm]
    decide


/-! Preservation of dimension soundness (for C10). -/

theorem flookup_some_lt (fd : List Dict) (k : Key) (r : Rec)
    (h : flookup fd k = some r) : k.length - 1 < fd.length := by
  by_contra hlt
  unfold flookup getDict at h
  rw [List.getElem?_eq_none (by omega)] at h
  simp [dlookup] at h

theorem DimsOK_modifyDict_sub (fd : List Dict) (i : Nat) (F : Dict → Dict)
    (k : Key) (hk : k.Sorted (· < ·)) (hki : k.length = i + 1)
    (hF : ∀ d e, e ∈ F d → e.1 = k ∨ e ∈ d)
    (h : DimsOK fd) : DimsOK (modifyDict fd i F) := by
  intro j d hj e he
  by_cases hij : i = j
  · subst hij
    by_cases hin : i < fd.length
    · rw [getElem?_modifyDict_self fd i F hin] at hj
      cases hfd : fd[i]? with
      | none =>
        rw [hfd] at hj
        exact absurd hj (by simp)
      | some d0 =>
        rw [hfd] at hj
        have hd : d = F d0 := (Option.some.inj hj).symm
        rcases hF d0 e (hd ▸ he) with h1 | h1
        · rw [h1, hki]
          exact ⟨rfl, h1 ▸ hk⟩
        · exact h i d0 hfd e h1
    · rw [modifyDict_oob fd i F (by omega)] at hj
      exact h i d hj e he
  · rw [getElem?_modifyDict_ne fd i j F hij] at hj
    exact h j d hj e he

theorem DimsOK_modify_dset (fd : List Dict) (k : Key) (r : Rec)
    (hk : k.Sorted (· < ·)) (hne : k ≠ []) (h : DimsOK fd) :
    DimsOK (modifyDict fd (k.length - 1) (fun d => dset d k r)) := by
  refine DimsOK_modifyDict_sub fd (k.length - 1) _ k hk ?_ ?_ h
  · cases k with
    | nil => exact absurd rfl hne
    | cons a l => simp
  · intro d e he
    rcases mem_dset d k r e he with h1 | h1
    · rw [h1]
      exact Or.inl rfl
    · exact Or.inr h1

theorem DimsOK_modify_propupdate (fd : List Dict) (k : Key) (attr : Props)
    (hk : k.Sorted (· < ·)) (hne : k ≠ []) (h : DimsOK fd) :
    DimsOK (modifyDict fd (k.length - 1) (fun d =>
      match dlookup d k with
      | some r0 => dset d k ⟨r0.is_maximal, r0.membership, updateProps r0.props attr⟩
      | none => d)) := by
  refine DimsOK_modifyDict_sub fd (k.length - 1) _ k hk ?_ ?_ h
  · cases k with
    | nil => exact absurd rfl hne
    | cons a l => simp
  · intro d e he
    cases hlk : dlookup d k with
    | none =>
      rw [hlk] at he
      exact Or.inr he
    | some r0 =>
      rw [hlk] at he
      rcases mem_dset d k _ e he with h1 | h1
      · rw [h1]
        exact Or.inl rfl
      · exact Or.inr h1

theorem DimsOK_entry (fd : List Dict) (face simplex_ : Key) (mf : List Key)
    (attr : Props) (hk : face.Sorted (· < ·)) (hne : face ≠ [])
    (hface : face <+ simplex_) (h : DimsOK fd) :
    DimsOK (updateFacesDictEntry fd face simplex_ mf attr).1 := by
  cases hlk : flookup fd face with
  | none =>
    by_cases h1 : face.length = simplex_.length
    · rw [entry_eq_absent_full fd face simplex_ mf attr hlk h1]
      exact DimsOK_modify_dset fd face _ hk hne h
    · rw [entry_eq_absent_proper fd face simplex_ mf attr hlk h1]
      exact DimsOK_modify_dset fd face _ hk hne h
  | some r =>
    by_cases h1 : face.length = simplex_.length
    · have hfs : face = simplex_ := hface.eq_of_length h1
      rw [entry_eq_same_len fd face simplex_ mf attr r hlk h1]
      rw [← hfs]
      exact DimsOK_modify_propupdate fd face attr hk hne h
    · cases h2 : r.is_maximal with
      | true =>
        rw [entry_eq_demote fd face simplex_ mf attr r hlk h1 h2]
        exact DimsOK_modify_dset fd face _ hk hne h
      | false =>
        rw [entry_eq_cleanup fd face simplex_ mf attr r hlk h1 h2]
        exact DimsOK_modify_dset fd face _ hk hne h

theorem DimsOK_uFDL (fd : List Dict) (n : Nat) (h : DimsOK fd) :
    DimsOK (updateFacesDictLength fd n) := by
  intro i d hi e he
  unfold updateFacesDictLength at hi
  by_cases hc : fd.length < n
  · rw [if_pos hc] at hi
    by_cases hil : i < fd.length
    · rw [List.getElem?_append_left hil] at hi
      exact h i d hi e he
    · rw [List.getElem?_append_right (by omega)] at hi
      rw [List.getElem?_replicate] at hi
      by_cases h2 : i - fd.length < n - fd.length
      · rw [if_pos h2] at hi
        rw [← Option.some.inj hi] at he
        exact absurd he (List.not_mem_nil e)
      · rw [if_neg h2] at hi
        exact absurd hi (by simp)
  · rw [if_neg hc] at hi
    exact h i d hi e he

theorem DimsOK_fold (simplex_ : Key) (attr : Props)
    (hs : simplex_.Sorted (· < ·)) :
    ∀ (l : List Key) (fd : List Dict) (mf : List Key),
      (∀ f ∈ l, f <+ simplex_ ∧ f ≠ []) → DimsOK fd →
      DimsOK ((l.foldl
        (fun acc face => updateFacesDictEntry acc.1 face simplex_ acc.2 attr)
        (fd, mf)).1)
  | [], fd, mf, _, h => h
  | face :: rest, fd, mf, hmem, h => by
    simp only [List.foldl_cons]
    have hf := hmem face (List.mem_cons_self face rest)
    refine DimsOK_fold simplex_ attr hs rest _ _ ?_ ?_
    · intro f hf2
      exact hmem f (List.mem_cons_of_mem face hf2)
    · exact DimsOK_entry fd face simplex_ mf attr
        (List.Pairwise.sublist hf.1 hs) hf.2 hf.1 h

theorem fold_entry_length (simplex_ : Key) (attr : Props) :
    ∀ (l : List Key) (fd : List Dict) (mf : List Key),
      ((l.foldl
        (fun acc face => updateFacesDictEntry acc.1 face simplex_ acc.2 attr)
        (fd, mf)).1).length = fd.length
  | [], fd, mf => rfl
  | face :: rest, fd, mf => by
    simp only [List.foldl_cons]
    rw [fold_entry_length simplex_ attr rest _ _]
    exact entry_length fd face simplex_ mf attr


theorem insert_dims (S : SV) (xs : List Nat) (attr : Props)
    (h : DimsOK S.faces_dict) :
    DimsOK ((insertSimplex S xs attr).1).faces_dict := by
  by_cases h1 : (canon xs).length ≠ xs.length
  · rw [insertSimplex_eq_dup S xs attr h1]
    exact h
  · rw [not_not] at h1
    by_cases h2 : (canon xs).isEmpty
    · rw [insertSimplex_eq_empty S xs attr h1 h2]
      exact h
    · have hne : canon xs ≠ [] := by
        intro hc
        exact h2 (by rw [hc]; rfl)
      cases h3 : flookup (updateFacesDictLength S.faces_dict (canon xs).length)
          (canon xs) with
      | some r =>
        rw [insertSimplex_eq_present S xs attr r h1 h2 h3]
        exact DimsOK_modify_dset _ _ _ (canon_sorted xs) hne (DimsOK_uFDL _ _ h)
      | none =>
        rw [insertSimplex_eq_main S xs attr h1 h2 h3]
        refine DimsOK_modify_propupdate _ _ _ (canon_sorted xs) hne ?_
        refine DimsOK_fold (canon xs) attr (canon_sorted xs) _ _ _ ?_
          (DimsOK_uFDL _ _ h)
        intro f hf
        rw [mem_facesDesc] at hf
        exact hf

theorem insert_maxdim (S : SV) (xs : List Nat) (attr : Props)
    (h : S.max_dim = (S.faces_dict.length : Int) - 1) :
    ((insertSimplex S xs attr).1).max_dim
      = (((insertSimplex S xs attr).1).faces_dict.length : Int) - 1 := by
  by_cases h1 : (canon xs).length ≠ xs.length
  · rw [insertSimplex_eq_dup S xs attr h1]
    exact h
  · rw [not_not] at h1
    by_cases h2 : (canon xs).isEmpty
    · rw [insertSimplex_eq_empty S xs attr h1 h2]
      exact h
    · have hne : canon xs ≠ [] := by
        intro hc
        exact h2 (by rw [hc]; rfl)
      have hkpos : 1 ≤ (canon xs).length := by
        cases hc : canon xs with
        | nil => exact absurd hc hne
        | cons a l => simp
      cases h3 : flookup (updateFacesDictLength S.faces_dict (canon xs).length)
          (canon xs) with
      | some r =>
        rw [insertSimplex_eq_present S xs attr r h1 h2 h3]
        have h4 : flookup S.faces_dict (canon xs) = some r := by
          rw [← flookup_updateFacesDictLength S.faces_dict (canon xs).length]
          exact h3
        have hlt := flookup_some_lt S.faces_dict (canon xs) r h4
        have hle : (canon xs).length ≤ S.faces_dict.length := by omega
        simp only [length_modifyDict, length_updateFacesDictLength]
        rw [Nat.max_eq_left hle]
        exact h
      | none =>
        rw [insertSimplex_eq_main S xs attr h1 h2 h3]
        simp only [length_modifyDict, fold_entry_length, length_updateFacesDictLength]
        rw [← h1]
        by_cases hc : S.max_dim < ((canon xs).length : Int) - 1
        · rw [if_pos hc]
          rw [h] at hc
          have : S.faces_dict.length < (canon xs).length := by omega
          rw [Nat.max_eq_right (by omega)]
        · rw [if_neg hc]
          rw [h] at hc
          have : (canon xs).length ≤ S.faces_dict.length := by omega
          rw [Nat.max_eq_left this]
          exact h

theorem cascadeStep_ok_cases (fd : List Dict) (s_ : Key) (n : Nat) (s : Key)
    (fd2 : List Dict) (h : cascadeStep fd s_ n s = .ok fd2) :
    ∃ r2 : Rec, fd2 = modifyDict fd (s.length - 1) (fun d => dset d s r2) := by
  unfold cascadeStep at h
  cases h1 : dlookup (getDict fd (s.length - 1)) s with
  | none =>
    simp only [h1] at h
    exact absurd h (by simp)
  | some r =>
    simp only [h1] at h
    cases h2 : removeKey r.membership s_ with
    | none =>
      simp only [h2] at h
      exact absurd h (by simp)
    | some m =>
      simp only [h2] at h
      refine ⟨⟨if m.length = 0 ∧ (s.length : Int) = (n : Int) - 1 then true
        else r.is_maximal, m, r.props⟩, ?_⟩
      exact (Except.ok.inj h).symm

theorem DimsOK_cascadeFold_aux (s_ : Key) (n : Nat)
    (hmem : ∀ f ∈ properFaces s_, f <+ s_ ∧ f ≠ []) (hs : s_.Sorted (· < ·)) :
    ∀ (l : List Key) (acc : List Dict × Option PyErr),
      (∀ f ∈ l, f ∈ properFaces s_) → DimsOK acc.1 →
      (DimsOK ((l.foldl (fun (acc : List Dict × Option PyErr) s =>
          match acc.2 with
          | some _ => acc
          | none =>
            match cascadeStep acc.1 s_ n s with
            | .ok fd1 => (fd1, none)
            | .error e => (acc.1, some e)) acc).1) ∧
       ((l.foldl (fun (acc : List Dict × Option PyErr) s =>
          match acc.2 with
          | some _ => acc
          | none =>
            match cascadeStep acc.1 s_ n s with
            | .ok fd1 => (fd1, none)
            | .error e => (acc.1, some e)) acc).1).length = acc.1.length)
  | [], acc, _, h => ⟨h, rfl⟩
  | s :: rest, acc, hl, h => by
    simp only [List.foldl_cons]
    have hs2 := hl s (List.mem_cons_self s rest)
    have hrest : ∀ f ∈ rest, f ∈ properFaces s_ :=
      fun f hf => hl f (List.mem_cons_of_mem s hf)
    cases hacc : acc.2 with
    | some e =>
      simp only [hacc]
      exact DimsOK_cascadeFold_aux s_ n hmem hs rest acc hrest h
    | none =>
      simp only [hacc]
      cases hstep : cascadeStep acc.1 s_ n s with
      | error e =>
        simp only [hstep]
        exact DimsOK_cascadeFold_aux s_ n hmem hs rest _ hrest h
      | ok fd2 =>
        simp only [hstep]
        obtain ⟨hsub, hne⟩ := hmem s hs2
        obtain ⟨r2, hr2⟩ := cascadeStep_ok_cases acc.1 s_ n s fd2 hstep
        have hd2 : DimsOK fd2 := by
          rw [hr2]
          exact DimsOK_modify_dset _ _ _ (List.Pairwise.sublist hsub hs) hne h
        have hl2 : fd2.length = acc.1.length := by
          rw [hr2]
          exact length_modifyDict _ _ _
        obtain ⟨ha, hb⟩ := DimsOK_cascadeFold_aux s_ n hmem hs rest (fd2, none)
          hrest hd2
        exact ⟨ha, by rw [hb]; exact hl2⟩

theorem DimsOK_cascadeFold (fd0 : List Dict) (s_ : Key) (n : Nat)
    (hs : s_.Sorted (· < ·)) (h : DimsOK fd0) :
    DimsOK ((cascadeFold fd0 s_ n).1) ∧
    ((cascadeFold fd0 s_ n).1).length = fd0.length := by
  unfold cascadeFold
  refine DimsOK_cascadeFold_aux s_ n ?_ hs (properFaces s_) (fd0, none) ?_ h
  · intro f hf
    have hf2 := List.mem_of_mem_filter hf
    rw [mem_facesDesc] at hf2
    exact hf2
  · intro f hf
    exact hf

theorem DimsOK_eraseLast (fd : List Dict) (h : DimsOK fd) :
    DimsOK (fd.eraseIdx (fd.length - 1)) := by
  cases hfd : fd with
  | nil => intro i d hi; rw [List.eraseIdx_nil] at hi; exact absurd hi (by simp)
  | cons d0 rest =>
    rw [← hfd]
    intro i d hi e he
    rw [List.eraseIdx_eq_take_drop_succ] at hi
    have hlen : fd.length - 1 + 1 = fd.length := by rw [hfd]; simp
    rw [hlen, List.drop_length, List.append_nil] at hi
    rw [List.getElem?_take] at hi
    by_cases h2 : i < fd.length - 1
    · rw [if_pos h2] at hi
      exact h i d hi e he
    · rw [if_neg h2] at hi
      exact absurd hi (by simp)

theorem remove_found_facts (S : SV) (xs : List Nat) (d : Dict) (r : Rec)
    (hd : DimsOK S.faces_dict)
    (h1 : pyIdx S.faces_dict (((canon xs).length : Int) - 1) = some d)
    (h2 : dlookup d (canon xs) = some r) :
    canon xs ≠ [] ∧ (canon xs).length - 1 < S.faces_dict.length := by
  have hmem := dlookup_mem d (canon xs) r h2
  unfold pyIdx at h1
  by_cases hpos : (0 : Int) ≤ ((canon xs).length : Int) - 1
  · rw [if_pos hpos] at h1
    have hkpos : 1 ≤ (canon xs).length := by omega
    have htn : (((canon xs).length : Int) - 1).toNat = (canon xs).length - 1 := by
      omega
    rw [htn] at h1
    have hlt : (canon xs).length - 1 < S.faces_dict.length := by
      by_contra hge
      rw [List.getElem?_eq_none (by omega)] at h1
      exact absurd h1 (by simp)
    refine ⟨?_, hlt⟩
    intro hc
    rw [hc] at hkpos
    simp at hkpos
  · rw [if_neg hpos] at h1
    have hk0 : (canon xs).length = 0 := by omega
    have hk : canon xs = [] := List.length_eq_zero.mp hk0
    by_cases hle : ((-(((canon xs).length : Int) - 1)).toNat ≤ S.faces_dict.length)
    · rw [if_pos hle] at h1
      have := hd _ _ h1 _ hmem
      rw [hk] at this
      simp at this
    · rw [if_neg hle] at h1
      exact absurd h1 (by simp)

theorem remove_dims_maxdim (S : SV) (xs : List Nat)
    (hd : DimsOK S.faces_dict)
    (hm : S.max_dim = (S.faces_dict.length : Int) - 1) :
    DimsOK ((removeMaximalSimplex S xs).1).faces_dict ∧
    ((removeMaximalSimplex S xs).1).max_dim
      = (((removeMaximalSimplex S xs).1).faces_dict.length : Int) - 1 := by
  cases h1 : pyIdx S.faces_dict (((canon xs).length : Int) - 1) with
  | none =>
    rw [removeMaximalSimplex_eq_idxErr S xs h1]
    exact ⟨hd, hm⟩
  | some d =>
    cases h2 : dlookup d (canon xs) with
    | none =>
      rw [removeMaximalSimplex_eq_absent S xs d h1 h2]
      exact ⟨hd, hm⟩
    | some r =>
      cases h3 : r.is_maximal with
      | false =>
        rw [removeMaximalSimplex_eq_notMax S xs d r h1 h2 h3]
        exact ⟨hd, hm⟩
      | true =>
        obtain ⟨hne, hlt⟩ := remove_found_facts S xs d r hd h1 h2
        have hkpos : 1 ≤ (canon xs).length := by
          cases hc : canon xs with
          | nil => exact absurd hc hne
          | cons a l => simp
        have hd0 : DimsOK (modifyDict S.faces_dict ((canon xs).length - 1)
            (fun d0 => derase d0 (canon xs))) := by
          refine DimsOK_modifyDict_sub _ _ _ (canon xs) (canon_sorted xs)
            (by omega) ?_ hd
          intro d1 e he
          exact Or.inr (List.mem_of_mem_filter he)
        have hl0 : (modifyDict S.faces_dict ((canon xs).length - 1)
            (fun d0 => derase d0 (canon xs))).length = S.faces_dict.length :=
          length_modifyDict _ _ _
        obtain ⟨hdc, hlc⟩ := DimsOK_cascadeFold
          (modifyDict S.faces_dict ((canon xs).length - 1)
            (fun d0 => derase d0 (canon xs))) (canon xs) xs.length
          (canon_sorted xs) hd0
        rcases h4 : cascadeFold
          (modifyDict S.faces_dict ((canon xs).length - 1)
            (fun d0 => derase d0 (canon xs))) (canon xs) xs.length with ⟨fd1, o⟩
        rw [h4] at hdc hlc
        simp only at hdc hlc
        have hlen1 : fd1.length = S.faces_dict.length := by rw [hlc, hl0]
        cases o with
        | some e =>
          rw [removeMaximalSimplex_eq_err S xs d r fd1 e h1 h2 h3 h4]
          exact ⟨hdc, by rw [hlen1]; exact hm⟩
        | none =>
          by_cases h5 : (getDict fd1 ((canon xs).length - 1)).length = 0 ∧
              ((canon xs).length : Int) - 1 = S.max_dim
          · rw [removeMaximalSimplex_eq_ok_erase S xs d r fd1 h1 h2 h3 h4 h5]
            constructor
            · have hkl : (canon xs).length - 1 = fd1.length - 1 := by
                have := h5.2
                rw [hm] at this
                omega
              rw [hkl]
              exact DimsOK_eraseLast fd1 hdc
            · rfl
          · rw [removeMaximalSimplex_eq_ok_keep S xs d r fd1 h1 h2 h3 h4 h5]
            exact ⟨hdc, by rw [hlen1]; exact hm⟩


/-- C10: after any finite sequence of insert_simplex and
remove_maximal_simplex calls on a fresh SimplexView, max_dim equals the
length of faces_dict minus one, and every key stored in the dimension-i dict
is a duplicate-free collection of exactly i + 1 elements. Sequences are
modelled by threading the post-call state of every call, including the
partially mutated state of a call that raised. -/
theorem C10_dimension_bookkeeping (ops : List Op) :
    (runOps emptySV ops).max_dim
      = (((runOps emptySV ops).faces_dict).length : Int) - 1 ∧
    ∀ i d, (runOps emptySV ops).faces_dict[i]? = some d →
      ∀ e ∈ d, e.1.length = i + 1 ∧ e.1.Nodup := by
  have hmain : ∀ (l : List Op) (S : SV), DimsOK S.faces_dict →
      S.max_dim = (S.faces_dict.length : Int) - 1 →
      DimsOK (runOps S l).faces_dict ∧
      (runOps S l).max_dim = ((runOps S l).faces_dict.length : Int) - 1 := by
    intro l
    induction l with
    | nil =>
      intro S hd hm
      exact ⟨hd, hm⟩
    | cons op rest ih =>
      intro S hd hm
      have hstep : runOps S (op :: rest) = runOps (applyOp S op) rest := by
        unfold runOps
        rw [List.foldl_cons]
      rw [hstep]
      cases op with
      | ins xs attr =>
        exact ih _ (insert_dims S xs attr hd) (insert_maxdim S xs attr hm)
      | rem xs =>
        obtain ⟨ha, hb⟩ := remove_dims_maxdim S xs hd hm
        exact ih _ ha hb
  obtain ⟨hdm, hm⟩ := hmain ops emptySV
    (by intro i d hi; simp [emptySV] at hi) (by decide)
  refine ⟨hm, ?_⟩
  intro i d hi e he
  obtain ⟨ha, hb⟩ := hdm i d hi e he
  exact ⟨ha, hb.nodup⟩


/-! The amended C6 machinery: a successful insert stores its key. -/

theorem uFDL_noop (fd : List Dict) (n : Nat) (h : ¬ fd.length < n) :
    updateFacesDictLength fd n = fd := by
  unfold updateFacesDictLength
  rw [if_neg h]

theorem flookup_modify_dset_ne (fd : List Dict) (k : Key) (r : Rec) (g : Key)
    (hg : g ≠ k) :
    flookup (modifyDict fd (k.length - 1) (fun d => dset d k r)) g
      = flookup fd g := by
  unfold flookup
  by_cases hij : k.length - 1 = g.length - 1
  · rw [← hij]
    by_cases hin : k.length - 1 < fd.length
    · rw [getDict_modifyDict_self fd _ _ hin]
      exact dlookup_dset_ne _ k g r hg
    · rw [modifyDict_oob fd _ _ (by omega)]
  · rw [getDict_modifyDict_ne fd _ _ _ hij]

theorem fold_flookup_ne (s_ : Key) (attr : Props) (g : Key) :
    ∀ (l : List Key) (fd : List Dict) (mf : List Key),
      (∀ f ∈ l, f <+ s_ ∧ f ≠ g) →
      flookup ((l.foldl
        (fun acc face => updateFacesDictEntry acc.1 face s_ acc.2 attr)
        (fd, mf)).1) g = flookup fd g
  | [], fd, mf, _ => rfl
  | face :: rest, fd, mf, hmem => by
    simp only [List.foldl_cons]
    have hf := hmem face (List.mem_cons_self face rest)
    rw [fold_flookup_ne s_ attr g rest _ _
      (fun f hf2 => hmem f (List.mem_cons_of_mem face hf2))]
    exact entry_flookup_ne fd face s_ mf attr g hf.1 (fun hgf => hf.2 hgf.symm)

theorem fold_keeps_simplex (s_ : Key) (attr : Props) (hne : s_ ≠ [])
    (hnd : s_.Nodup) (fd : List Dict) (hlen : s_.length ≤ fd.length)
    (habs : flookup fd s_ = none) :
    flookup (((facesDesc s_).foldl
      (fun acc face => updateFacesDictEntry acc.1 face s_ acc.2 attr)
      (fd, ([] : List Key))).1) s_ = some ⟨true, [], []⟩ := by
  obtain ⟨rest, hsplit⟩ := facesDesc_eq_cons s_ hne
  have hnodup := facesDesc_nodup s_ hnd
  rw [hsplit] at hnodup
  have hnotin : s_ ∉ rest := (List.nodup_cons.mp hnodup).1
  have hkpos : 1 ≤ s_.length := by
    cases hc : s_ with
    | nil => exact absurd hc hne
    | cons a l => simp
  rw [hsplit]
  simp only [List.foldl_cons]
  rw [entry_eq_absent_full fd s_ s_ [] attr habs rfl]
  rw [fold_flookup_ne s_ attr s_ rest _ _ ?_]
  · exact flookup_modify_dset fd s_ _ (by omega)
  · intro f hf
    have hf2 : f ∈ facesDesc s_ := by
      rw [hsplit]
      exact List.mem_cons_of_mem s_ hf
    rw [mem_facesDesc] at hf2
    refine ⟨hf2.1, ?_⟩
    intro hfs
    rw [hfs] at hf
    exact hnotin hf

theorem insert_success_mem (S : SV) (xs : List Nat) (attr : Props)
    (h : (insertSimplex S xs attr).2 = none) :
    ∃ r, flookup ((insertSimplex S xs attr).1).faces_dict (canon xs) = some r := by
  by_cases h1 : (canon xs).length ≠ xs.length
  · rw [insertSimplex_eq_dup S xs attr h1] at h
    exact absurd h (by simp)
  · rw [not_not] at h1
    by_cases h2 : (canon xs).isEmpty
    · rw [insertSimplex_eq_empty S xs attr h1 h2] at h
      exact absurd h (by simp)
    · have hne : canon xs ≠ [] := by
        intro hc
        exact h2 (by rw [hc]; rfl)
      have hkpos : 1 ≤ (canon xs).length := by
        cases hc : canon xs with
        | nil => exact absurd hc hne
        | cons a l => simp
      cases h3 : flookup (updateFacesDictLength S.faces_dict (canon xs).length)
          (canon xs) with
      | some r =>
        rw [insertSimplex_eq_present S xs attr r h1 h2 h3]
        have hlt := flookup_some_lt _ _ _ h3
        exact ⟨_, flookup_modify_dset _ _ _ hlt⟩
      | none =>
        rw [insertSimplex_eq_main S xs attr h1 h2 h3]
        have hlenU : (canon xs).length
            ≤ (updateFacesDictLength S.faces_dict (canon xs).length).length := by
          rw [length_updateFacesDictLength]
          omega
        have hnd : (canon xs).Nodup := canon_nodup xs
        have hkeep := fold_keeps_simplex (canon xs) attr hne hnd
          (updateFacesDictLength S.faces_dict (canon xs).length) hlenU h3
        have hfoldlen : (((facesDesc (canon xs)).foldl
            (fun acc face => updateFacesDictEntry acc.1 face (canon xs) acc.2 attr)
            (updateFacesDictLength S.faces_dict (canon xs).length,
             ([] : List Key))).1).length
            = (updateFacesDictLength S.faces_dict (canon xs).length).length :=
          fold_entry_length (canon xs) attr _ _ _
        have hin : (canon xs).length - 1 < (((facesDesc (canon xs)).foldl
            (fun acc face => updateFacesDictEntry acc.1 face (canon xs) acc.2 attr)
            (updateFacesDictLength S.faces_dict (canon xs).length,
             ([] : List Key))).1).length := by
          rw [hfoldlen]
          omega
        refine ⟨⟨true, [], updateProps [] attr⟩, ?_⟩
        unfold flookup
        rw [getDict_modifyDict_self _ _ _ hin]
        unfold flookup at hkeep
        rw [hkeep]
        exact dlookup_dset_self _ _ _


/-- C6: inserting the same elements twice (with possibly different attribute
dicts) keeps exactly one stored record for those elements: the second
insert_simplex call succeeds, leaves the number of stored simplices at every
dimension unchanged, leaves max_dim unchanged, merges the second call's
attributes into the existing record, and changes no other record. -/
theorem C6_insert_idempotent (S : SV) (xs : List Nat) (a1 a2 : Props)
    (h : (insertSimplex S xs a1).2 = none) :
    (insertSimplex (insertSimplex S xs a1).1 xs a2).2 = none ∧
    (∀ i : Nat,
      (getDict ((insertSimplex (insertSimplex S xs a1).1 xs a2).1).faces_dict i).length
        = (getDict ((insertSimplex S xs a1).1).faces_dict i).length) ∧
    ((insertSimplex (insertSimplex S xs a1).1 xs a2).1).max_dim
      = ((insertSimplex S xs a1).1).max_dim ∧
    (∀ r1, svLookup (insertSimplex S xs a1).1 (canon xs) = some r1 →
      svLookup (insertSimplex (insertSimplex S xs a1).1 xs a2).1 (canon xs)
        = some ⟨r1.is_maximal, r1.membership, updateProps r1.props a2⟩) ∧
    (∀ g : Key, g ≠ canon xs →
      svLookup (insertSimplex (insertSimplex S xs a1).1 xs a2).1 g
        = svLookup (insertSimplex S xs a1).1 g) := by
  by_cases h1 : (canon xs).length ≠ xs.length
  · rw [insertSimplex_eq_dup S xs a1 h1] at h
    exact absurd h (by simp)
  · rw [not_not] at h1
    by_cases h2 : (canon xs).isEmpty
    · rw [insertSimplex_eq_empty S xs a1 h1 h2] at h
      exact absurd h (by simp)
    · have hne : canon xs ≠ [] := by
        intro hc
        exact h2 (by rw [hc]; rfl)
      have hkpos : 1 ≤ (canon xs).length := by
        cases hc : canon xs with
        | nil => exact absurd hc hne
        | cons a l => simp
      obtain ⟨r1, hr1⟩ := insert_success_mem S xs a1 h
      have hlt := flookup_some_lt _ _ _ hr1
      have hnoop : updateFacesDictLength
          ((insertSimplex S xs a1).1).faces_dict (canon xs).length
            = ((insertSimplex S xs a1).1).faces_dict :=
        uFDL_noop _ _ (by omega)
      have hr1u : flookup (updateFacesDictLength
          ((insertSimplex S xs a1).1).faces_dict (canon xs).length)
            (canon xs) = some r1 := by
        rw [flookup_updateFacesDictLength]
        exact hr1
      rw [insertSimplex_eq_present ((insertSimplex S xs a1).1) xs a2 r1 h1 h2 hr1u]
      rw [hnoop]
      refine ⟨rfl, ?_, rfl, ?_, ?_⟩
      · intro i
        by_cases hij : (canon xs).length - 1 = i
        · rw [← hij]
          rw [getDict_modifyDict_self _ _ _ hlt]
          unfold flookup at hr1
          exact length_dset_of_mem _ _ _ r1 hr1
        · rw [getDict_modifyDict_ne _ _ _ _ hij]
      · intro r1b hr1b
        rw [svLookup_eq_flookup] at hr1b
        rw [hr1b] at hr1
        have hrr : r1 = r1b := (Option.some.inj hr1).symm
        rw [svLookup_eq_flookup]
        rw [← hrr]
        exact flookup_modify_dset _ _ _ hlt
      · intro g hg
        rw [svLookup_eq_flookup, svLookup_eq_flookup]
        exact flookup_modify_dset_ne _ _ _ g hg

/-- C6 witness: the double insert of (1,2) with two different attribute
dicts, observed on the empty view. -/
theorem C6_witness :
    (insertSimplex (insertSimplex emptySV [1, 2] [("w", 1)]).1
      [1, 2] [("w", 2)]).2 = none ∧
    (getDict ((insertSimplex (insertSimplex emptySV [1, 2] [("w", 1)]).1
      [1, 2] [("w", 2)]).1).faces_dict 1).length
      = (getDict ((insertSimplex emptySV [1, 2] [("w", 1)]).1).faces_dict 1).length :=
  ⟨(C6_insert_idempotent emptySV [1, 2] [("w", 1)] [("w", 2)] (by decide)).1,
   (C6_insert_idempotent emptySV [1, 2] [("w", 1)] [("w", 2)] (by decide)).2.1 1⟩


/-! The amended C1: Invariant I2 under insert-only sequences, via a pointwise
record invariant. -/

theorem mem_modifyDict (fd : List Dict) (i : Nat) (F : Dict → Dict) :
    ∀ d ∈ modifyDict fd i F, d ∈ fd ∨ ∃ d0 ∈ fd, d = F d0 := by
  induction fd generalizing i with
  | nil => simp [modifyDict]
  | cons d0 rest ih =>
    cases i with
    | zero =>
      intro d hd
      simp only [modifyDict] at hd
      rw [List.mem_cons] at hd
      rcases hd with hd | hd
      · exact Or.inr ⟨d0, List.mem_cons_self d0 rest, hd⟩
      · exact Or.inl (List.mem_cons_of_mem d0 hd)
    | succ j =>
      intro d hd
      simp only [modifyDict] at hd
      rw [List.mem_cons] at hd
      rcases hd with hd | hd
      · exact Or.inl (by rw [hd]; exact List.mem_cons_self d0 rest)
      · rcases ih j d hd with h1 | ⟨d1, hd1, h2⟩
        · exact Or.inl (List.mem_cons_of_mem d0 h1)
        · exact Or.inr ⟨d1, List.mem_cons_of_mem d0 hd1, h2⟩

/-- The I2 record property: the is_maximal flag mirrors emptiness of the
membership set. -/

theorem I2_modify (fd : List Dict) (i : Nat) (F : Dict → Dict)
    (hF : ∀ d, (∀ e ∈ d, I2rec e.2) → ∀ e ∈ F d, I2rec e.2)
    (h : ∀ d ∈ fd, ∀ e ∈ d, I2rec e.2) :
    ∀ d ∈ modifyDict fd i F, ∀ e ∈ d, I2rec e.2 := by
  intro d hd
  rcases mem_modifyDict fd i F d hd with h1 | ⟨d0, hd0, h2⟩
  · exact h d h1
  · rw [h2]
    exact hF d0 (h d0 hd0)

theorem I2_dset (d : Dict) (k : Key) (r : Rec) (hr : I2rec r)
    (h : ∀ e ∈ d, I2rec e.2) : ∀ e ∈ dset d k r, I2rec e.2 := by
  intro e he
  rcases mem_dset d k r e he with h1 | h1
  · rw [h1]
    exact hr
  · exact h e h1

theorem I2_entry (fd : List Dict) (face simplex_ : Key) (mf : List Key)
    (attr : Props) (h : ∀ d ∈ fd, ∀ e ∈ d, I2rec e.2) :
    ∀ d ∈ (updateFacesDictEntry fd face simplex_ mf attr).1, ∀ e ∈ d, I2rec e.2 := by
  cases hlk : flookup fd face with
  | none =>
    by_cases h1 : face.length = simplex_.length
    · rw [entry_eq_absent_full fd face simplex_ mf attr hlk h1]
      refine I2_modify fd _ _ ?_ h
      intro d hd
      refine I2_dset d face _ ?_ hd
      constructor <;> intro <;> rfl
    · rw [entry_eq_absent_proper fd face simplex_ mf attr hlk h1]
      refine I2_modify fd _ _ ?_ h
      intro d hd
      refine I2_dset d face _ ?_ hd
      constructor <;> intro hc <;> exact absurd hc (by simp)
  | some r =>
    by_cases h1 : face.length = simplex_.length
    · rw [entry_eq_same_len fd face simplex_ mf attr r hlk h1]
      refine I2_modify fd _ _ ?_ h
      intro d hd e he
      cases hlk2 : dlookup d simplex_ with
      | none =>
        rw [hlk2] at he
        exact hd e he
      | some r0 =>
        rw [hlk2] at he
        refine I2_dset d simplex_ _ ?_ hd e he
        have hr0 : I2rec r0 := hd _ (dlookup_mem d simplex_ r0 hlk2)
        exact hr0
    · cases h2 : r.is_maximal with
      | true =>
        rw [entry_eq_demote fd face simplex_ mf attr r hlk h1 h2]
        refine I2_modify fd _ _ ?_ h
        intro d hd
        refine I2_dset d face _ ?_ hd
        constructor <;> intro hc
        · exact absurd hc (by simp)
        · exact absurd hc (addKey_ne_nil _ _)
      | false =>
        rw [entry_eq_cleanup fd face simplex_ mf attr r hlk h1 h2]
        refine I2_modify fd _ _ ?_ h
        intro d hd
        refine I2_dset d face _ ?_ hd
        constructor <;> intro hc
        · exact absurd hc (by simp)
        · exact absurd hc (addKey_ne_nil _ _)

theorem I2_fold (simplex_ : Key) (attr : Props) :
    ∀ (l : List Key) (fd : List Dict) (mf : List Key),
      (∀ d ∈ fd, ∀ e ∈ d, I2rec e.2) →
      ∀ d ∈ ((l.foldl
        (fun acc face => updateFacesDictEntry acc.1 face simplex_ acc.2 attr)
        (fd, mf)).1), ∀ e ∈ d, I2rec e.2
  | [], fd, mf, h => h
  | face :: rest, fd, mf, h => by
    simp only [List.foldl_cons]
    exact I2_fold simplex_ attr rest _ _ (I2_entry fd face simplex_ mf attr h)

theorem I2_insert (S : SV) (xs : List Nat) (attr : Props)
    (h : ∀ d ∈ S.faces_dict, ∀ e ∈ d, I2rec e.2) :
    ∀ d ∈ ((insertSimplex S xs attr).1).faces_dict, ∀ e ∈ d, I2rec e.2 := by
  have hU : ∀ n, ∀ d ∈ updateFacesDictLength S.faces_dict n, ∀ e ∈ d, I2rec e.2 := by
    intro n d hd
    unfold updateFacesDictLength at hd
    by_cases hc : S.faces_dict.length < n
    · rw [if_pos hc] at hd
      rw [List.mem_append] at hd
      rcases hd with hd | hd
      · exact h d hd
      · rw [List.eq_of_mem_replicate hd]
        intro e he
        exact absurd he (List.not_mem_nil e)
    · rw [if_neg hc] at hd
      exact h d hd
  by_cases h1 : (canon xs).length ≠ xs.length
  · rw [insertSimplex_eq_dup S xs attr h1]
    exact h
  · rw [not_not] at h1
    by_cases h2 : (canon xs).isEmpty
    · rw [insertSimplex_eq_empty S xs attr h1 h2]
      exact h
    · cases h3 : flookup (updateFacesDictLength S.faces_dict (canon xs).length)
          (canon xs) with
      | some r =>
        rw [insertSimplex_eq_present S xs attr r h1 h2 h3]
        refine I2_modify _ _ _ ?_ (hU _)
        intro d hd
        refine I2_dset d (canon xs) _ ?_ hd
        have hr : I2rec r := by
          unfold flookup at h3
          have hmem := dlookup_mem _ _ _ h3
          unfold getDict at hmem
          cases hg : (updateFacesDictLength S.faces_dict
              (canon xs).length)[(canon xs).length - 1]? with
          | none =>
            rw [hg] at hmem
            exact absurd hmem (List.not_mem_nil _)
          | some dd =>
            rw [hg] at hmem
            exact hU (canon xs).length dd (List.getElem?_mem hg) _ hmem
        exact hr
      | none =>
        rw [insertSimplex_eq_main S xs attr h1 h2 h3]
        refine I2_modify _ _ _ ?_ (I2_fold (canon xs) attr _ _ _ (hU _))
        intro d hd e he
        cases hlk2 : dlookup d (canon xs) with
        | none =>
          rw [hlk2] at he
          exact hd e he
        | some r0 =>
          rw [hlk2] at he
          refine I2_dset d (canon xs) _ ?_ hd e he
          exact hd _ (dlookup_mem d (canon xs) r0 hlk2)

/-- C1 (amended): Invariant I2 holds after every sequence of insert_simplex
calls on a fresh view: every stored record has is_maximal = true exactly when
its membership set is empty. After remove_maximal_simplex calls the invariant
can fail on faces of codimension at least two, as the counterexample shows,
so the claim is restricted to insert-only sequences. -/
theorem C1_I2_insert_only (l : List (List Nat × Props)) :
    ∀ d ∈ (runInserts emptySV l).faces_dict, ∀ e ∈ d,
      (e.2.is_maximal = true ↔ e.2.membership = []) := by
  have hmain : ∀ (l2 : List (List Nat × Props)) (S : SV),
      (∀ d ∈ S.faces_dict, ∀ e ∈ d, I2rec e.2) →
      ∀ d ∈ (runInserts S l2).faces_dict, ∀ e ∈ d, I2rec e.2 := by
    intro l2
    induction l2 with
    | nil =>
      intro S h
      exact h
    | cons p rest ih =>
      intro S h
      have hstep : runInserts S (p :: rest)
          = runInserts (insertSimplex S p.1 p.2).1 rest := by
        unfold runInserts
        rw [List.foldl_cons]
      rw [hstep]
      exact ih _ (I2_insert S p.1 p.2 h)
  intro d hd e he
  exact hmain l emptySV (by intro d2 hd2; simp [emptySV] at hd2) d hd e he

/-- C1 witness: the I2 equivalence read off the record stored for node 5
after inserting the single node 5. -/
theorem C1_witness :
    ((⟨true, [], []⟩ : Rec).is_maximal = true
      ↔ ((⟨true, [], []⟩ : Rec)).membership = []) :=
  C1_I2_insert_only [([5], [])] [([5], ⟨true, [], []⟩)] (by decide)
    ([5], ⟨true, [], []⟩) (by decide)


/-! The exact effect of the insertion loop (for C2 and C3). -/

theorem fold_spec (s_ : Key) (attr : Props) (fd : List Dict)
    (hsor : s_.Sorted (· < ·)) (hne : s_ ≠ [])
    (hlen : s_.length ≤ fd.length)
    (habs : flookup fd s_ = none)
    (hK : ∀ k r, flookup fd k = some r → ∀ m ∈ r.membership, k <+ m ∧ k ≠ m) :
    ∀ (rem done : List Key) (cur : List Dict) (mf : List Key),
      facesDesc s_ = done ++ rem →
      cur.length = fd.length →
      (∀ g, g ∉ done → flookup cur g = flookup fd g) →
      (∀ f ∈ done, flookup cur f = some (loopRec fd s_ f)) →
      (∀ m, m ∈ mf ↔ (m ∈ done ∧ flagTrue fd m = true)) →
      ((rem.foldl
        (fun acc face => updateFacesDictEntry acc.1 face s_ acc.2 attr)
        (cur, mf)).1.length = fd.length ∧
       (∀ g, g ∉ facesDesc s_ → flookup ((rem.foldl
        (fun acc face => updateFacesDictEntry acc.1 face s_ acc.2 attr)
        (cur, mf)).1) g = flookup fd g) ∧
       (∀ f ∈ facesDesc s_, flookup ((rem.foldl
        (fun acc face => updateFacesDictEntry acc.1 face s_ acc.2 attr)
        (cur, mf)).1) f = some (loopRec fd s_ f)))
  | [], done, cur, mf, hsplit, hcl, hun, hrec, hmf => by
    rw [List.append_nil] at hsplit
    refine ⟨hcl, ?_, ?_⟩
    · intro g hg
      refine hun g ?_
      rw [← hsplit]
      exact hg
    · intro f hf
      refine hrec f ?_
      rw [← hsplit]
      exact hf
  | h0 :: rem, done, cur, mf, hsplit, hcl, hun, hrec, hmf => by
    have hnodup := facesDesc_nodup s_ hsor.nodup
    rw [hsplit] at hnodup
    have hh0faces : h0 ∈ facesDesc s_ := by
      rw [hsplit]
      exact List.mem_append_right done (List.mem_cons_self h0 rem)
    have hh0 := (mem_facesDesc s_ h0).mp hh0faces
    have hh0done : h0 ∉ done := by
      intro hc
      exact (List.nodup_append.mp hnodup).2.2 hc (List.mem_cons_self h0 rem)
    have hcur0 : flookup cur h0 = flookup fd h0 := hun h0 hh0done
    have hh0pos : 1 ≤ h0.length := by
      cases hc : h0 with
      | nil => exact absurd hc hh0.2
      | cons a l2 => simp
    have hh0lt : h0.length - 1 < cur.length := by
      have h1 := hh0.1.length_le
      rw [hcl]
      omega
    have hsplit2 : facesDesc s_ = (done ++ [h0]) ++ rem := by
      rw [hsplit, List.append_assoc]
      rfl
    have hunmk : ∀ (rec2 : Rec) (g : Key), g ∉ done ++ [h0] →
        flookup (modifyDict cur (h0.length - 1) (fun d => dset d h0 rec2)) g
          = flookup fd g := by
      intro rec2 g hg
      have hg1 : g ∉ done := fun hc => hg (List.mem_append_left _ hc)
      have hg2 : g ≠ h0 := by
        intro hc
        exact hg (List.mem_append_right _ (by rw [hc]; exact List.mem_singleton.mpr rfl))
      rw [flookup_modify_dset_ne cur h0 _ g hg2]
      exact hun g hg1
    have hrecmk : ∀ (rec2 : Rec), rec2 = loopRec fd s_ h0 →
        ∀ f ∈ done ++ [h0],
        flookup (modifyDict cur (h0.length - 1) (fun d => dset d h0 rec2)) f
          = some (loopRec fd s_ f) := by
      intro rec2 hrec2 f hf
      rw [List.mem_append] at hf
      rcases hf with hf | hf
      · have hfh0 : f ≠ h0 := fun hc => hh0done (hc ▸ hf)
        rw [flookup_modify_dset_ne cur h0 _ f hfh0]
        exact hrec f hf
      · rw [List.mem_singleton] at hf
        rw [hf, flookup_modify_dset cur h0 _ hh0lt, hrec2]
    simp only [List.foldl_cons]
    cases hlk : flookup fd h0 with
    | none =>
      have hcurlk : flookup cur h0 = none := by rw [hcur0, hlk]
      have hloop : loopRec fd s_ h0 =
          (if h0 = s_ then ⟨true, [], []⟩ else ⟨false, [s_], []⟩) := by
        unfold loopRec
        simp only [hlk]
      have hmf2 : ∀ m, m ∈ mf ↔ (m ∈ done ++ [h0] ∧ flagTrue fd m = true) := by
        intro m
        rw [hmf m, List.mem_append]
        constructor
        · rintro ⟨hm1, hm2⟩
          exact ⟨Or.inl hm1, hm2⟩
        · rintro ⟨hm1 | hm1, hm2⟩
          · exact ⟨hm1, hm2⟩
          · rw [List.mem_singleton] at hm1
            rw [hm1] at hm2
            unfold flagTrue at hm2
            rw [hlk] at hm2
            exact absurd hm2 (by simp)
      by_cases hfull : h0.length = s_.length
      · have hh0s : h0 = s_ := hh0.1.eq_of_length hfull
        rw [entry_eq_absent_full cur h0 s_ mf attr hcurlk hfull]
        refine fold_spec s_ attr fd hsor hne hlen habs hK rem (done ++ [h0]) _ _
          hsplit2 (by rw [length_modifyDict]; exact hcl) (hunmk _) ?_ hmf2
        refine hrecmk _ ?_
        rw [hloop, if_pos hh0s]
      · have hh0s : h0 ≠ s_ := by
          intro hc
          rw [hc] at hfull
          exact hfull rfl
        rw [entry_eq_absent_proper cur h0 s_ mf attr hcurlk hfull]
        refine fold_spec s_ attr fd hsor hne hlen habs hK rem (done ++ [h0]) _ _
          hsplit2 (by rw [length_modifyDict]; exact hcl) (hunmk _) ?_ hmf2
        refine hrecmk _ ?_
        rw [hloop, if_neg hh0s]
    | some r =>
      have hcurlk : flookup cur h0 = some r := by rw [hcur0, hlk]
      have hnotfull : h0.length ≠ s_.length := by
        intro hc
        have hh0s : h0 = s_ := hh0.1.eq_of_length hc
        rw [hh0s, habs] at hlk
        exact absurd hlk (by simp)
      cases hflag : r.is_maximal with
      | true =>
        have hloop : loopRec fd s_ h0 = ⟨false, addKey r.membership s_, r.props⟩ := by
          unfold loopRec
          simp only [hlk]
          rw [if_pos hflag]
        have hmf2 : ∀ m, m ∈ addKey mf h0 ↔
            (m ∈ done ++ [h0] ∧ flagTrue fd m = true) := by
          intro m
          rw [mem_addKey, hmf m, List.mem_append]
          constructor
          · rintro (⟨hm1, hm2⟩ | hm1)
            · exact ⟨Or.inl hm1, hm2⟩
            · refine ⟨Or.inr (by rw [hm1]; exact List.mem_singleton.mpr rfl), ?_⟩
              rw [hm1]
              unfold flagTrue
              simp only [hlk]
              exact hflag
          · rintro ⟨hm1 | hm1, hm2⟩
            · exact Or.inl ⟨hm1, hm2⟩
            · rw [List.mem_singleton] at hm1
              exact Or.inr hm1
        rw [entry_eq_demote cur h0 s_ mf attr r hcurlk hnotfull hflag]
        refine fold_spec s_ attr fd hsor hne hlen habs hK rem (done ++ [h0]) _ _
          hsplit2 (by rw [length_modifyDict]; exact hcl) (hunmk _) ?_ hmf2
        refine hrecmk _ ?_
        rw [hloop]
      | false =>
        have hfiltereq : r.membership.filter (fun f => decide (f ∉ mf))
            = r.membership.filter
              (fun m => !(decide (m <+ s_) && flagTrue fd m)) := by
          refine List.filter_congr ?_
          intro m hm
          obtain ⟨hkm, hkm2⟩ := hK h0 r hlk m hm
          have hiff : (m ∈ mf) ↔ (m <+ s_ ∧ flagTrue fd m = true) := by
            rw [hmf m]
            constructor
            · rintro ⟨hm1, hm2⟩
              refine ⟨?_, hm2⟩
              have hmf3 : m ∈ facesDesc s_ := by
                rw [hsplit]
                exact List.mem_append_left _ hm1
              exact ((mem_facesDesc s_ m).mp hmf3).1
            · rintro ⟨hm1, hm2⟩
              refine ⟨?_, hm2⟩
              have hmlen : h0.length < m.length := by
                have h1 := hkm.length_le
                by_contra hc
                have h2 : h0.length = m.length := by omega
                exact hkm2 (hkm.eq_of_length h2)
              have hmne : m ≠ [] := by
                intro hc
                rw [hc] at hkm
                rw [List.sublist_nil.mp hkm] at hh0
                exact hh0.2 rfl
              exact facesDesc_split_mem s_ done rem m h0 hsplit hm1 hmne hmlen
          by_cases hmmf : m ∈ mf
          · obtain ⟨ha, hb⟩ := hiff.mp hmmf
            simp [hmmf, ha, hb]
          · have hnands : ¬(m <+ s_ ∧ flagTrue fd m = true) :=
              fun hc => hmmf (hiff.mpr hc)
            rcases not_and_or.mp hnands with hs1 | hs1
            · simp [hmmf, hs1]
            · simp [hmmf, hs1]
        have hloop : loopRec fd s_ h0 =
            ⟨false, addKey (r.membership.filter (fun f => decide (f ∉ mf))) s_,
             r.props⟩ := by
          unfold loopRec
          simp only [hlk]
          rw [if_neg (by rw [hflag]; exact Bool.false_ne_true)]
          rw [hfiltereq]
        have hmf2 : ∀ m, m ∈ mf ↔ (m ∈ done ++ [h0] ∧ flagTrue fd m = true) := by
          intro m
          rw [hmf m, List.mem_append]
          constructor
          · rintro ⟨hm1, hm2⟩
            exact ⟨Or.inl hm1, hm2⟩
          · rintro ⟨hm1 | hm1, hm2⟩
            · exact ⟨hm1, hm2⟩
            · rw [List.mem_singleton] at hm1
              rw [hm1] at hm2
              unfold flagTrue at hm2
              simp only [hlk] at hm2
              rw [hflag] at hm2
              exact absurd hm2 (by simp)
        rw [entry_eq_cleanup cur h0 s_ mf attr r hcurlk hnotfull hflag]
        refine fold_spec s_ attr fd hsor hne hlen habs hK rem (done ++ [h0]) _ _
          hsplit2 (by rw [length_modifyDict]; exact hcl) (hunmk _) ?_ hmf2
        refine hrecmk _ ?_
        rw [hloop]


theorem flookup_modify_propupdate_ne (fd : List Dict) (k : Key) (attr : Props)
    (g : Key) (hg : g ≠ k) :
    flookup (modifyDict fd (k.length - 1) (fun d =>
      match dlookup d k with
      | some r0 => dset d k ⟨r0.is_maximal, r0.membership, updateProps r0.props attr⟩
      | none => d)) g = flookup fd g := by
  unfold flookup
  by_cases hij : k.length - 1 = g.length - 1
  · rw [← hij]
    by_cases hin : k.length - 1 < fd.length
    · rw [getDict_modifyDict_self fd _ _ hin]
      cases hlk : dlookup (getDict fd (k.length - 1)) k with
      | none => rfl
      | some r0 => exact dlookup_dset_ne _ k g _ hg
    · rw [modifyDict_oob fd _ _ (by omega)]
  · rw [getDict_modifyDict_ne fd _ _ _ hij]

theorem flagTrue_uFDL (fd : List Dict) (n : Nat) (k : Key) :
    flagTrue (updateFacesDictLength fd n) k = flagTrue fd k := by
  unfold flagTrue
  rw [flookup_updateFacesDictLength]

theorem loopRec_uFDL (fd : List Dict) (n : Nat) (s_ f : Key) :
    loopRec (updateFacesDictLength fd n) s_ f = loopRec fd s_ f := by
  unfold loopRec
  rw [flookup_updateFacesDictLength]
  simp only [flagTrue_uFDL]

/-- The exact effect of a successful fresh insert: the inserted simplex is
stored maximal with the call's attributes; every other face of it is stored
with the loopRec record; every other key is untouched. -/
theorem insertSimplex_spec (S : SV) (xs : List Nat) (attr : Props)
    (hnd : xs.Nodup) (hne : xs ≠ [])
    (habs : svLookup S (canon xs) = none)
    (hK : ∀ k r, svLookup S k = some r → ∀ m ∈ r.membership, k <+ m ∧ k ≠ m) :
    (insertSimplex S xs attr).2 = none ∧
    (∀ g, g ∉ facesDesc (canon xs) →
      svLookup (insertSimplex S xs attr).1 g = svLookup S g) ∧
    (∀ f ∈ facesDesc (canon xs), f ≠ canon xs →
      svLookup (insertSimplex S xs attr).1 f
        = some (loopRec S.faces_dict (canon xs) f)) ∧
    svLookup (insertSimplex S xs attr).1 (canon xs)
      = some ⟨true, [], updateProps [] attr⟩ := by
  have h1 : (canon xs).length = xs.length := canon_of_nodup_length xs hnd
  have hkne : canon xs ≠ [] := by
    intro hc
    have h0 : (canon xs).length = 0 := by rw [hc]; rfl
    rw [h1] at h0
    exact hne (List.length_eq_zero.mp h0)
  have h2 : ¬ (canon xs).isEmpty := by
    cases hcx : canon xs with
    | nil => exact absurd hcx hkne
    | cons a l => simp
  have hkpos : 1 ≤ (canon xs).length := by
    cases hcx : canon xs with
    | nil => exact absurd hcx hkne
    | cons a l => simp
  have habs2 : flookup (updateFacesDictLength S.faces_dict (canon xs).length)
      (canon xs) = none := by
    rw [flookup_updateFacesDictLength, ← svLookup_eq_flookup]
    exact habs
  have hK2 : ∀ k r, flookup (updateFacesDictLength S.faces_dict (canon xs).length)
      k = some r → ∀ m ∈ r.membership, k <+ m ∧ k ≠ m := by
    intro k r hkr
    rw [flookup_updateFacesDictLength, ← svLookup_eq_flookup] at hkr
    exact hK k r hkr
  have hlenU : (canon xs).length
      ≤ (updateFacesDictLength S.faces_dict (canon xs).length).length := by
    rw [length_updateFacesDictLength]
    omega
  obtain ⟨hflen, hfun, hfrec⟩ := fold_spec (canon xs) attr
    (updateFacesDictLength S.faces_dict (canon xs).length) (canon_sorted xs)
    hkne hlenU habs2 hK2 (facesDesc (canon xs)) []
    (updateFacesDictLength S.faces_dict (canon xs).length) []
    (by rw [List.nil_append]) rfl (fun g _ => rfl)
    (by intro f hf; exact absurd hf (List.not_mem_nil f))
    (by intro m; simp)
  have hselfmem : canon xs ∈ facesDesc (canon xs) :=
    (mem_facesDesc _ _).mpr ⟨List.Sublist.refl _, hkne⟩
  have hself : flookup (((facesDesc (canon xs)).foldl
      (fun acc face => updateFacesDictEntry acc.1 face (canon xs) acc.2 attr)
      (updateFacesDictLength S.faces_dict (canon xs).length,
       ([] : List Key))).1) (canon xs) = some ⟨true, [], []⟩ := by
    rw [hfrec (canon xs) hselfmem, loopRec_uFDL]
    unfold loopRec
    have h3 : flookup S.faces_dict (canon xs) = none := by
      rw [← svLookup_eq_flookup]
      exact habs
    simp only [h3, if_pos]
  rw [insertSimplex_eq_main S xs attr h1 h2 habs2]
  refine ⟨rfl, ?_, ?_, ?_⟩
  · intro g hg
    have hgs : g ≠ canon xs := by
      intro hc
      rw [hc] at hg
      exact hg hselfmem
    rw [svLookup_eq_flookup, svLookup_eq_flookup]
    rw [flookup_modify_propupdate_ne _ _ _ g hgs]
    rw [hfun g hg, flookup_updateFacesDictLength]
  · intro f hf hfs
    rw [svLookup_eq_flookup]
    rw [flookup_modify_propupdate_ne _ _ _ f hfs]
    rw [hfrec f hf, loopRec_uFDL]
  · rw [svLookup_eq_flookup]
    unfold flookup
    rw [getDict_modifyDict_self _ _ _ (by rw [hflen]; omega)]
    have h4 : dlookup (getDict (((facesDesc (canon xs)).foldl
        (fun acc face => updateFacesDictEntry acc.1 face (canon xs) acc.2 attr)
        (updateFacesDictLength S.faces_dict (canon xs).length,
         ([] : List Key))).1) ((canon xs).length - 1)) (canon xs)
        = some ⟨true, [], []⟩ := hself
    simp only [h4]
    exact dlookup_dset_self _ _ _


theorem svLookup_emptySV (k : Key) : svLookup emptySV k = none := rfl

theorem canon_ne_nil (xs : List Nat) (h : xs ≠ []) : canon xs ≠ [] := by
  cases hx : xs with
  | nil => exact absurd hx h
  | cons a l =>
    intro hc
    have ha : a ∈ canon (a :: l) := (canon_mem (a :: l) a).mpr (List.mem_cons_self a l)
    rw [hc] at ha
    exact List.not_mem_nil a ha

theorem flagTrue_iff (fd : List Dict) (m : Key) :
    flagTrue fd m = true ↔
      ∃ rm, flookup fd m = some rm ∧ rm.is_maximal = true := by
  unfold flagTrue
  cases h : flookup fd m with
  | none => simp
  | some r => simp


theorem loopRec_eq_self (fd : List Dict) (s_ : Key)
    (hlk : flookup fd s_ = none) :
    loopRec fd s_ s_ = ⟨true, [], []⟩ := by
  unfold loopRec
  simp only [hlk, if_pos]

theorem loopRec_eq_fresh (fd : List Dict) (s_ f : Key)
    (hlk : flookup fd f = none) (h : f ≠ s_) :
    loopRec fd s_ f = ⟨false, [s_], []⟩ := by
  unfold loopRec
  simp only [hlk]
  rw [if_neg h]

theorem loopRec_eq_demote (fd : List Dict) (s_ f : Key) (r : Rec)
    (hlk : flookup fd f = some r) (h : r.is_maximal = true) :
    loopRec fd s_ f = ⟨false, addKey r.membership s_, r.props⟩ := by
  unfold loopRec
  simp only [hlk]
  rw [if_pos h]

theorem loopRec_eq_cleanup (fd : List Dict) (s_ f : Key) (r : Rec)
    (hlk : flookup fd f = some r) (h : r.is_maximal = false) :
    loopRec fd s_ f =
      ⟨false,
       addKey (r.membership.filter
         (fun m => !(decide (m <+ s_) && flagTrue fd m))) s_,
       r.props⟩ := by
  unfold loopRec
  simp only [hlk]
  rw [if_neg (by rw [h]; exact Bool.false_ne_true)]

theorem loopRec_not_max (fd : List Dict) (s_ f : Key) (h : f ≠ s_) :
    (loopRec fd s_ f).is_maximal = false := by
  cases hlk : flookup fd f with
  | none => rw [loopRec_eq_fresh fd s_ f hlk h]
  | some r =>
    by_cases hm : r.is_maximal = true
    · rw [loopRec_eq_demote fd s_ f r hlk hm]
    · rw [loopRec_eq_cleanup fd s_ f r hlk (Bool.eq_false_iff.mpr hm)]

theorem dset_dset_same (d : Dict) (k : Key) (r r' : Rec) :
    dset (dset d k r) k r' = dset d k r' := by
  induction d with
  | nil => simp [dset]
  | cons e rest ih =>
    by_cases h : k = e.1
    · simp [dset, h]
    · simp [dset, h, ih]

theorem dlookup_append_singleton (d : Dict) (k : Key) (r : Rec)
    (h : dlookup d k = none) : dlookup (d ++ [(k, r)]) k = some r := by
  induction d with
  | nil => simp [dlookup]
  | cons e rest ih =>
    rw [List.cons_append]
    cases e with
    | mk k0 r0 =>
      unfold dlookup at h ⊢
      by_cases hk : k = k0
      · rw [if_pos hk] at h
        exact absurd h (by simp)
      · rw [if_neg hk] at h ⊢
        exact ih h

theorem modifyDict_modifyDict (fd : List Dict) (i : Nat) (F G : Dict → Dict) :
    modifyDict (modifyDict fd i F) i G = modifyDict fd i (fun d => G (F d)) := by
  induction fd generalizing i with
  | nil => rfl
  | cons d rest ih =>
    cases i with
    | zero => rfl
    | succ j => simp [modifyDict, ih]

theorem canon_singleton (v : Nat) : canon [v] = [v] := rfl

theorem facesDesc_singleton (v : Nat) : facesDesc [v] = [[v]] := rfl

theorem properFaces_singleton (v : Nat) : properFaces [v] = [] := rfl


theorem StoreInv_of_shape (S' S : SV)
    (h : ∀ g, rshape (svLookup S' g) = rshape (svLookup S g))
    (hI : StoreInv S) : StoreInv S' := by
  obtain ⟨hk, hf, hm, hx⟩ := hI
  have hsome : ∀ g r', svLookup S' g = some r' →
      ∃ r0, svLookup S g = some r0 ∧ r'.is_maximal = r0.is_maximal ∧
        r'.membership = r0.membership := by
    intro g r' hg
    have hgg := h g
    rw [hg] at hgg
    cases h0 : svLookup S g with
    | none => rw [h0] at hgg; simp [rshape] at hgg
    | some r0 =>
      rw [h0] at hgg
      simp [rshape] at hgg
      exact ⟨r0, rfl, hgg.1, hgg.2⟩
  have hsome' : ∀ g r0, svLookup S g = some r0 →
      ∃ r', svLookup S' g = some r' ∧ r'.is_maximal = r0.is_maximal ∧
        r'.membership = r0.membership := by
    intro g r0 hg
    have hgg := h g
    rw [hg] at hgg
    cases h0 : svLookup S' g with
    | none => rw [h0] at hgg; simp [rshape] at hgg
    | some r' =>
      rw [h0] at hgg
      simp [rshape] at hgg
      exact ⟨r', rfl, hgg.1, hgg.2⟩
  refine ⟨?_, ?_, ?_, ?_⟩
  · intro k r hkr
    obtain ⟨r0, h0, -, -⟩ := hsome k r hkr
    exact hk k r0 h0
  · intro k r hkr f hf1 hf2
    obtain ⟨r0, h0, -, -⟩ := hsome k r hkr
    obtain ⟨rf, hrf⟩ := hf k r0 h0 f hf1 hf2
    obtain ⟨rf', hrf', -, -⟩ := hsome' f rf hrf
    exact ⟨rf', hrf'⟩
  · intro k r hkr m
    obtain ⟨r0, h0, he1, he2⟩ := hsome k r hkr
    rw [he2, hm k r0 h0 m]
    constructor
    · rintro ⟨a, b, rm, hrm, hmax⟩
      obtain ⟨rm', hrm', e1, -⟩ := hsome' m rm hrm
      exact ⟨a, b, rm', hrm', by rw [e1]; exact hmax⟩
    · rintro ⟨a, b, rm', hrm', hmax⟩
      obtain ⟨rm, hrm, e1, -⟩ := hsome m rm' hrm'
      exact ⟨a, b, rm, hrm, by rw [← e1]; exact hmax⟩
  · intro k r hkr hmax
    obtain ⟨r0, h0, e1, e2⟩ := hsome k r hkr
    rw [e2]
    exact hx k r0 h0 (by rw [← e1]; exact hmax)

theorem insert_present_shape (S : SV) (xs : List Nat) (attr : Props) (r : Rec)
    (h1 : (canon xs).length = xs.length) (h2 : ¬ (canon xs).isEmpty)
    (hlk : flookup (updateFacesDictLength S.faces_dict (canon xs).length)
      (canon xs) = some r) (g : Key) :
    rshape (svLookup (insertSimplex S xs attr).1 g) = rshape (svLookup S g) := by
  rw [insertSimplex_eq_present S xs attr r h1 h2 hlk]
  have h4 : flookup S.faces_dict (canon xs) = some r := by
    rw [← flookup_updateFacesDictLength S.faces_dict (canon xs).length]
    exact hlk
  have hlt := flookup_some_lt S.faces_dict (canon xs) r h4
  have hU : updateFacesDictLength S.faces_dict (canon xs).length = S.faces_dict :=
    uFDL_noop _ _ (by omega)
  rw [svLookup_eq_flookup, svLookup_eq_flookup, hU]
  by_cases hg : g = canon xs
  · subst hg
    rw [flookup_modify_dset _ _ _ hlt, h4]
    simp [rshape]
  · rw [flookup_modify_dset_ne _ _ _ _ hg]


theorem insert_max_char (S : SV) (xs : List Nat) (attr : Props)
    (hnd : xs.Nodup) (hne : xs ≠ [])
    (habs : svLookup S (canon xs) = none)
    (hK : ∀ k r, svLookup S k = some r → ∀ m ∈ r.membership, k <+ m ∧ k ≠ m)
    (m : Key) :
    (∃ rm, svLookup (insertSimplex S xs attr).1 m = some rm ∧
      rm.is_maximal = true) ↔
    (m = canon xs ∨ (¬ (m <+ canon xs ∧ m ≠ []) ∧
      ∃ rm, svLookup S m = some rm ∧ rm.is_maximal = true)) := by
  obtain ⟨-, hun, hrec, hself⟩ := insertSimplex_spec S xs attr hnd hne habs hK
  by_cases hm : m ∈ facesDesc (canon xs)
  · by_cases hms : m = canon xs
    · subst hms
      constructor
      · intro _
        exact Or.inl rfl
      · intro _
        exact ⟨⟨true, [], updateProps [] attr⟩, hself, rfl⟩
    · rw [hrec m hm hms]
      constructor
      · rintro ⟨rm, hrm, hmax⟩
        rw [← Option.some.inj hrm] at hmax
        rw [loopRec_not_max S.faces_dict (canon xs) m hms] at hmax
        exact absurd hmax (by simp)
      · rintro (h | ⟨hnf, -⟩)
        · exact absurd h hms
        · exact absurd ((mem_facesDesc _ _).mp hm) hnf
  · rw [hun m hm]
    constructor
    · rintro ⟨rm, hrm, hmax⟩
      exact Or.inr ⟨fun hc => hm ((mem_facesDesc _ _).mpr hc), rm, hrm, hmax⟩
    · rintro (h | ⟨-, rm, hrm, hmax⟩)
      · subst h
        exact absurd ((mem_facesDesc _ _).mpr
          ⟨List.Sublist.refl _, canon_ne_nil xs hne⟩) hm
      · exact ⟨rm, hrm, hmax⟩

theorem StoreInv_insert_main (S : SV) (xs : List Nat) (attr : Props)
    (hnd : xs.Nodup) (hne : xs ≠ [])
    (habs : svLookup S (canon xs) = none)
    (hI : StoreInv S) : StoreInv (insertSimplex S xs attr).1 := by
  obtain ⟨hKeys, hFaces, hMemb, hMax⟩ := hI
  have hK : ∀ k r, svLookup S k = some r → ∀ m ∈ r.membership, k <+ m ∧ k ≠ m := by
    intro k r hkr m hm
    have h1 := (hMemb k r hkr m).mp hm
    exact ⟨h1.1, h1.2.1⟩
  obtain ⟨-, hun, hrec, hself⟩ := insertSimplex_spec S xs attr hnd hne habs hK
  have hchar := insert_max_char S xs attr hnd hne habs hK
  have hsne : canon xs ≠ [] := canon_ne_nil xs hne
  have hssor : (canon xs).Sorted (· < ·) := canon_sorted xs
  have hselfmem : canon xs ∈ facesDesc (canon xs) :=
    (mem_facesDesc _ _).mpr ⟨List.Sublist.refl _, hsne⟩
  have hcases : ∀ g r', svLookup (insertSimplex S xs attr).1 g = some r' →
      (g = canon xs ∧ r' = ⟨true, [], updateProps [] attr⟩) ∨
      (g ∈ facesDesc (canon xs) ∧ g ≠ canon xs ∧
        r' = loopRec S.faces_dict (canon xs) g) ∨
      (g ∉ facesDesc (canon xs) ∧ svLookup S g = some r') := by
    intro g r' hg
    by_cases h1 : g ∈ facesDesc (canon xs)
    · by_cases h2 : g = canon xs
      · subst h2
        rw [hself] at hg
        exact Or.inl ⟨rfl, (Option.some.inj hg).symm⟩
      · rw [hrec g h1 h2] at hg
        exact Or.inr (Or.inl ⟨h1, h2, (Option.some.inj hg).symm⟩)
    · rw [hun g h1] at hg
      exact Or.inr (Or.inr ⟨h1, hg⟩)
  have hstored : ∀ f ∈ facesDesc (canon xs),
      ∃ rf, svLookup (insertSimplex S xs attr).1 f = some rf := by
    intro f hf
    by_cases h2 : f = canon xs
    · subst h2
      exact ⟨_, hself⟩
    · exact ⟨_, hrec f hf h2⟩
  refine ⟨?_, ?_, ?_, ?_⟩
  · -- KeysOK
    intro k r hkr
    rcases hcases k r hkr with ⟨he, -⟩ | ⟨h1, -, -⟩ | ⟨-, h2⟩
    · subst he
      exact ⟨hssor, hsne⟩
    · obtain ⟨hsub, hne2⟩ := (mem_facesDesc _ _).mp h1
      exact ⟨hssor.sublist hsub, hne2⟩
    · exact hKeys k r h2
  · -- FacesStored
    intro k r hkr f hsub hfne
    rcases hcases k r hkr with ⟨he, -⟩ | ⟨h1, -, -⟩ | ⟨h1, h2⟩
    · subst he
      exact hstored f ((mem_facesDesc _ _).mpr ⟨hsub, hfne⟩)
    · obtain ⟨hks, -⟩ := (mem_facesDesc _ _).mp h1
      exact hstored f ((mem_facesDesc _ _).mpr ⟨hsub.trans hks, hfne⟩)
    · by_cases hf1 : f ∈ facesDesc (canon xs)
      · exact hstored f hf1
      · obtain ⟨rf, hrf⟩ := hFaces k r h2 f hsub hfne
        exact ⟨rf, by rw [hun f hf1]; exact hrf⟩
  · -- MembExact
    intro k r hkr m
    rcases hcases k r hkr with ⟨he, he2⟩ | ⟨h1, h2a, h2b⟩ | ⟨h1, h2⟩
    · subst he
      rw [he2]
      constructor
      · intro hm0
        exact absurd hm0 (List.not_mem_nil m)
      · rintro ⟨hsm, hne2, hex⟩
        rw [hchar m] at hex
        rcases hex with h3 | ⟨-, rm, hrm, -⟩
        · exact absurd h3.symm hne2
        · obtain ⟨rs, hrs⟩ := hFaces m rm hrm (canon xs) hsm hsne
          rw [habs] at hrs
          exact absurd hrs (by simp)
    · obtain ⟨hks, hkne0⟩ := (mem_facesDesc _ _).mp h1
      cases hlk : flookup S.faces_dict k with
      | none =>
        rw [h2b, loopRec_eq_fresh S.faces_dict (canon xs) k hlk h2a]
        constructor
        · intro hm0
          rw [List.mem_singleton] at hm0
          subst hm0
          exact ⟨hks, h2a, ⟨true, [], updateProps [] attr⟩, hself, rfl⟩
        · rintro ⟨hkm, hkne, hex⟩
          rw [hchar m] at hex
          rcases hex with h3 | ⟨-, rm, hrm, -⟩
          · rw [List.mem_singleton]
            exact h3
          · obtain ⟨rk, hrk⟩ := hFaces m rm hrm k hkm hkne0
            rw [svLookup_eq_flookup, hlk] at hrk
            exact absurd hrk (by simp)
      | some r0 =>
        have hk0 : svLookup S k = some r0 := by
          rw [svLookup_eq_flookup]
          exact hlk
        cases hr0m : r0.is_maximal with
        | true =>
          have hemp : r0.membership = [] := hMax k r0 hk0 hr0m
          rw [h2b, loopRec_eq_demote S.faces_dict (canon xs) k r0 hlk hr0m, hemp]
          constructor
          · intro hm0
            rw [mem_addKey] at hm0
            rcases hm0 with hm0 | hm0
            · exact absurd hm0 (List.not_mem_nil m)
            · subst hm0
              exact ⟨hks, h2a, ⟨true, [], updateProps [] attr⟩, hself, rfl⟩
          · rintro ⟨hkm, hkne, hex⟩
            rw [hchar m] at hex
            rcases hex with h3 | ⟨-, rm, hrm, hrmax⟩
            · rw [mem_addKey]
              exact Or.inr h3
            · have := (hMemb k r0 hk0 m).mpr ⟨hkm, hkne, rm, hrm, hrmax⟩
              rw [hemp] at this
              exact absurd this (List.not_mem_nil m)
        | false =>
          rw [h2b, loopRec_eq_cleanup S.faces_dict (canon xs) k r0 hlk hr0m]
          constructor
          · intro hm0
            rw [mem_addKey] at hm0
            rcases hm0 with hm0 | hm0
            · rw [List.mem_filter] at hm0
              obtain ⟨hm1, hm2⟩ := hm0
              obtain ⟨hkm, hkne, rm, hrm, hrmax⟩ := (hMemb k r0 hk0 m).mp hm1
              have hflag : flagTrue S.faces_dict m = true :=
                (flagTrue_iff S.faces_dict m).mpr
                  ⟨rm, by rw [← svLookup_eq_flookup]; exact hrm, hrmax⟩
              have hnsub : ¬ m <+ canon xs := by
                intro hcsub
                rw [hflag] at hm2
                simp [hcsub] at hm2
              refine ⟨hkm, hkne, ?_⟩
              rw [hchar m]
              exact Or.inr ⟨fun hc => hnsub hc.1, rm, hrm, hrmax⟩
            · subst hm0
              exact ⟨hks, h2a, ⟨true, [], updateProps [] attr⟩, hself, rfl⟩
          · rintro ⟨hkm, hkne, hex⟩
            rw [hchar m] at hex
            rw [mem_addKey]
            rcases hex with h3 | ⟨hnf, rm, hrm, hrmax⟩
            · exact Or.inr h3
            · refine Or.inl ?_
              rw [List.mem_filter]
              refine ⟨(hMemb k r0 hk0 m).mpr ⟨hkm, hkne, rm, hrm, hrmax⟩, ?_⟩
              obtain ⟨-, hmne⟩ := hKeys m rm hrm
              have hnsub : ¬ m <+ canon xs := fun hc => hnf ⟨hc, hmne⟩
              simp [hnsub]
    · -- untouched key
      have hkne0 : k ≠ [] := (hKeys k r h2).2
      rw [hMemb k r h2 m]
      constructor
      · rintro ⟨hkm, hkne, rm, hrm, hrmax⟩
        refine ⟨hkm, hkne, ?_⟩
        rw [hchar m]
        refine Or.inr ⟨?_, rm, hrm, hrmax⟩
        intro hc
        exact h1 ((mem_facesDesc _ _).mpr ⟨hkm.trans hc.1, hkne0⟩)
      · rintro ⟨hkm, hkne, hex⟩
        rw [hchar m] at hex
        rcases hex with h3 | ⟨-, rm, hrm, hrmax⟩
        · subst h3
          exact absurd ((mem_facesDesc _ _).mpr ⟨hkm, hkne0⟩) h1
        · exact ⟨hkm, hkne, rm, hrm, hrmax⟩
  · -- MaxEmpty
    intro k r hkr hmax
    rcases hcases k r hkr with ⟨-, he2⟩ | ⟨-, h2a, h2b⟩ | ⟨-, h2⟩
    · rw [he2]
    · rw [h2b, loopRec_not_max S.faces_dict (canon xs) k h2a] at hmax
      exact absurd hmax (by simp)
    · exact hMax k r h2 hmax


theorem StoreInv_insert (S : SV) (xs : List Nat) (attr : Props)
    (hI : StoreInv S) : StoreInv (insertSimplex S xs attr).1 := by
  by_cases h1 : (canon xs).length ≠ xs.length
  · rw [insertSimplex_eq_dup S xs attr h1]
    exact hI
  · rw [not_not] at h1
    by_cases h2 : (canon xs).isEmpty
    · rw [insertSimplex_eq_empty S xs attr h1 h2]
      exact hI
    · cases h3 : flookup (updateFacesDictLength S.faces_dict (canon xs).length)
          (canon xs) with
      | some r =>
        exact StoreInv_of_shape _ S (insert_present_shape S xs attr r h1 h2 h3) hI
      | none =>
        have hnd : xs.Nodup := (canon_length_eq_iff xs).mp h1
        have hne : xs ≠ [] := by
          intro hc
          apply h2
          rw [hc]
          rfl
        have habs : svLookup S (canon xs) = none := by
          rw [svLookup_eq_flookup,
            ← flookup_updateFacesDictLength S.faces_dict (canon xs).length]
          exact h3
        exact StoreInv_insert_main S xs attr hnd hne habs hI

theorem StoreInv_emptySV : StoreInv emptySV := by
  refine ⟨?_, ?_, ?_, ?_⟩ <;> intro k r hkr <;> simp [svLookup_emptySV] at hkr

theorem StoreInv_runInserts_from :
    ∀ (l : List (List Nat × Props)) (S : SV), StoreInv S →
      StoreInv (runInserts S l)
  | [], _, h => h
  | p :: rest, S, h =>
    StoreInv_runInserts_from rest ((insertSimplex S p.1 p.2).1)
      (StoreInv_insert S p.1 p.2 h)

theorem StoreInv_runInserts (l : List (List Nat × Props)) :
    StoreInv (runInserts emptySV l) :=
  StoreInv_runInserts_from l emptySV StoreInv_emptySV

/-- C2: after any finite sequence of insert_simplex calls on an initially
empty SimplexView, for every stored simplex E and every non-empty proper
sub-collection G of E's elements, the canonical key of G is present in the
store at its dimension; and E is an element of G's membership set exactly
when E is itself maximal, because the insertion loop records and retains
only maximal cofaces in the membership sets. The claim's unconditional
"E is an element of F's membership set" therefore fails for non-maximal
stored E. -/
theorem C2_faces_membership (l : List (List Nat × Props)) (E : Key) (rE : Rec)
    (hE : svLookup (runInserts emptySV l) E = some rE) (G : List Nat)
    (hne : G ≠ []) (hsub : G.toFinset ⊂ E.toFinset) :
    ∃ rF, svLookup (runInserts emptySV l) (canon G) = some rF ∧
      (E ∈ rF.membership ↔ rE.is_maximal = true) := by
  obtain ⟨hKeys, hFaces, hMemb, -⟩ := StoreInv_runInserts l
  obtain ⟨hEsor, hEne⟩ := hKeys E rE hE
  have hGsor := canon_sorted G
  have hGsub : canon G ⊆ E := by
    intro a ha
    rw [canon_mem] at ha
    exact List.mem_toFinset.mp (hsub.subset (List.mem_toFinset.mpr ha))
  have hsl : canon G <+ E := sublist_of_subset_of_sorted E (canon G) hGsor hEsor hGsub
  have hGne : canon G ≠ [] := canon_ne_nil G hne
  have hGneE : canon G ≠ E := by
    intro hc
    have h1 : G.toFinset = E.toFinset := by
      rw [← canon_toFinset G, hc]
    exact absurd h1 (Finset.ssubset_iff_subset_ne.mp hsub).2
  obtain ⟨rF, hrF⟩ := hFaces E rE hE (canon G) hsl hGne
  refine ⟨rF, hrF, ?_⟩
  rw [hMemb (canon G) rF hrF E]
  constructor
  · rintro ⟨-, -, rm, hrm, hmax⟩
    rw [hE] at hrm
    rw [Option.some.inj hrm]
    exact hmax
  · intro hmax
    exact ⟨hsl, hGneE, rE, hE, hmax⟩

/-- Witness for C2: inserting the triangle (1,2,3) into an empty view and
taking the stored simplex E = (1,2,3) with its proper sub-collection (1,2),
the face (1,2) is stored, and E lies in its membership set if and only if E
is maximal (here it is). -/
theorem C2_witness :
    ∃ rF, svLookup (runInserts emptySV [([1, 2, 3], [])]) (canon [1, 2])
        = some rF ∧
      ([1, 2, 3] ∈ rF.membership ↔ (⟨true, [], []⟩ : Rec).is_maximal = true) :=
  C2_faces_membership [([1, 2, 3], [])] [1, 2, 3] ⟨true, [], []⟩ (by decide)
    [1, 2] (by decide) (by decide)


theorem SlotsCovered_insert (S : SV) (xs : List Nat) (attr : Props)
    (hI : StoreInv S) (hs : SlotsCovered S) :
    SlotsCovered (insertSimplex S xs attr).1 := by
  by_cases h1 : (canon xs).length ≠ xs.length
  · rw [insertSimplex_eq_dup S xs attr h1]
    exact hs
  · rw [not_not] at h1
    by_cases h2 : (canon xs).isEmpty
    · rw [insertSimplex_eq_empty S xs attr h1 h2]
      exact hs
    · cases h3 : flookup (updateFacesDictLength S.faces_dict (canon xs).length)
          (canon xs) with
      | some r =>
        intro i hi
        have h4 : flookup S.faces_dict (canon xs) = some r := by
          rw [← flookup_updateFacesDictLength S.faces_dict (canon xs).length]
          exact h3
        have hlt := flookup_some_lt S.faces_dict (canon xs) r h4
        have hlen : (insertSimplex S xs attr).1.faces_dict.length
            = S.faces_dict.length := by
          rw [insertSimplex_eq_present S xs attr r h1 h2 h3]
          simp only [length_modifyDict, length_updateFacesDictLength]
          exact Nat.max_eq_left (by omega)
        rw [hlen] at hi
        obtain ⟨k, rk, hk1, hk2⟩ := hs i hi
        have hsh := insert_present_shape S xs attr r h1 h2 h3 k
        rw [hk2] at hsh
        cases hnew : svLookup (insertSimplex S xs attr).1 k with
        | none =>
          rw [hnew] at hsh
          simp [rshape] at hsh
        | some rk' => exact ⟨k, rk', hk1, hnew⟩
      | none =>
        have hnd : xs.Nodup := (canon_length_eq_iff xs).mp h1
        have hne : xs ≠ [] := by
          intro hc
          apply h2
          rw [hc]
          rfl
        have habs : svLookup S (canon xs) = none := by
          rw [svLookup_eq_flookup,
            ← flookup_updateFacesDictLength S.faces_dict (canon xs).length]
          exact h3
        obtain ⟨hKeys, hFaces, hMemb, hMax⟩ := hI
        have hK : ∀ k r, svLookup S k = some r →
            ∀ m ∈ r.membership, k <+ m ∧ k ≠ m := by
          intro k r hkr m hm
          have hx := (hMemb k r hkr m).mp hm
          exact ⟨hx.1, hx.2.1⟩
        obtain ⟨-, hun, hrec, hself⟩ := insertSimplex_spec S xs attr hnd hne habs hK
        intro i hi
        have hlen : (insertSimplex S xs attr).1.faces_dict.length
            = max S.faces_dict.length (canon xs).length := by
          rw [insertSimplex_eq_main S xs attr h1 h2 h3]
          simp only [length_modifyDict, fold_entry_length,
            length_updateFacesDictLength]
        rw [hlen] at hi
        by_cases hin : i < (canon xs).length
        · have hf1 : ((canon xs).take (i + 1)).length = i + 1 := by
            rw [List.length_take]
            exact Nat.min_eq_left (by omega)
          have hfs : (canon xs).take (i + 1) <+ canon xs := List.take_sublist _ _
          have hfne : (canon xs).take (i + 1) ≠ [] := by
            intro hc
            rw [hc] at hf1
            simp at hf1
          have hfmem : (canon xs).take (i + 1) ∈ facesDesc (canon xs) :=
            (mem_facesDesc _ _).mpr ⟨hfs, hfne⟩
          by_cases hfe : (canon xs).take (i + 1) = canon xs
          · refine ⟨canon xs, ⟨true, [], updateProps [] attr⟩, ?_, hself⟩
            rw [← hfe]
            exact hf1
          · exact ⟨_, _, hf1, hrec _ hfmem hfe⟩
        · have hiold : i < S.faces_dict.length := by
            rcases lt_max_iff.mp hi with h | h
            · exact h
            · exact absurd h hin
          obtain ⟨k, rk, hk1, hk2⟩ := hs i hiold
          have hknot : k ∉ facesDesc (canon xs) := by
            intro hc
            have hle := ((mem_facesDesc _ _).mp hc).1.length_le
            rw [hk1] at hle
            omega
          exact ⟨k, rk, hk1, by rw [hun k hknot]; exact hk2⟩

theorem SlotsCovered_emptySV : SlotsCovered emptySV := by
  intro i hi
  simp [emptySV] at hi

theorem SlotsCovered_runInserts_from :
    ∀ (l : List (List Nat × Props)) (S : SV), StoreInv S → SlotsCovered S →
      SlotsCovered (runInserts S l)
  | [], _, _, h2 => h2
  | p :: rest, S, h1, h2 =>
    SlotsCovered_runInserts_from rest ((insertSimplex S p.1 p.2).1)
      (StoreInv_insert S p.1 p.2 h1) (SlotsCovered_insert S p.1 p.2 h1 h2)

theorem SlotsCovered_runInserts (l : List (List Nat × Props)) :
    SlotsCovered (runInserts emptySV l) :=
  SlotsCovered_runInserts_from l emptySV StoreInv_emptySV SlotsCovered_emptySV

theorem maxdim_runInserts_from :
    ∀ (l : List (List Nat × Props)) (S : SV),
      S.max_dim = (S.faces_dict.length : Int) - 1 →
      (runInserts S l).max_dim = ((runInserts S l).faces_dict.length : Int) - 1
  | [], _, h => h
  | p :: rest, S, h =>
    maxdim_runInserts_from rest ((insertSimplex S p.1 p.2).1)
      (insert_maxdim S p.1 p.2 h)

theorem maxdim_runInserts (l : List (List Nat × Props)) :
    (runInserts emptySV l).max_dim
      = ((runInserts emptySV l).faces_dict.length : Int) - 1 :=
  maxdim_runInserts_from l emptySV (by decide)


theorem insert_singleton_state (S : SV) (v : Nat) (attr : Props)
    (habs : svLookup S [v] = none) :
    insertSimplex S [v] attr =
      ((⟨(if S.max_dim < 0 then 0 else S.max_dim),
         modifyDict (updateFacesDictLength S.faces_dict 1) 0
           (fun d => dset d [v] (⟨true, [], updateProps [] attr⟩ : Rec))⟩ : SV),
       none) := by
  have h1 : (canon [v]).length = [v].length := by rw [canon_singleton]
  have h2 : ¬ (canon [v]).isEmpty := by rw [canon_singleton]; simp
  have h3 : flookup (updateFacesDictLength S.faces_dict (canon [v]).length)
      (canon [v]) = none := by
    rw [canon_singleton, flookup_updateFacesDictLength, ← svLookup_eq_flookup]
    exact habs
  have h3u : flookup (updateFacesDictLength S.faces_dict 1) [v] = none := by
    rw [flookup_updateFacesDictLength, ← svLookup_eq_flookup]
    exact habs
  have hfun : ∀ d : Dict,
      (match dlookup (dset d [v] (⟨true, [], []⟩ : Rec)) [v] with
       | some r0 => dset (dset d [v] (⟨true, [], []⟩ : Rec)) [v]
           ⟨r0.is_maximal, r0.membership, updateProps r0.props attr⟩
       | none => dset d [v] (⟨true, [], []⟩ : Rec))
      = dset d [v] (⟨true, [], updateProps [] attr⟩ : Rec) := by
    intro d
    simp only [dlookup_dset_self]
    rw [dset_dset_same]
  rw [insertSimplex_eq_main S [v] attr h1 h2 h3, canon_singleton]
  simp only [List.length_singleton, Nat.sub_self, Nat.cast_one, sub_self]
  rw [facesDesc_singleton]
  simp only [List.foldl_cons, List.foldl_nil]
  rw [entry_eq_absent_full (updateFacesDictLength S.faces_dict 1) [v] [v] [] attr
    h3u rfl]
  simp only [List.length_singleton, Nat.sub_self]
  rw [modifyDict_modifyDict]
  simp only [hfun]


theorem cascadeFold_singleton (fd0 : List Dict) (v : Nat) (n : Nat) :
    cascadeFold fd0 (canon [v]) n = (fd0, none) := by
  unfold cascadeFold
  rw [canon_singleton, properFaces_singleton]
  rfl

theorem singleton_roundtrip (S : SV) (v : Nat) (attr : Props)
    (hmd : S.max_dim = (S.faces_dict.length : Int) - 1)
    (hsc : SlotsCovered S)
    (habs : svLookup S [v] = none) :
    (insertSimplex S [v] attr).2 = none ∧
    (removeMaximalSimplex (insertSimplex S [v] attr).1 [v]).2 = none ∧
    (removeMaximalSimplex (insertSimplex S [v] attr).1 [v]).1 = S := by
  obtain ⟨md, fd⟩ := S
  have hins := insert_singleton_state ⟨md, fd⟩ v attr habs
  refine ⟨by rw [hins], ?_⟩
  cases fd with
  | nil =>
    have hmd0 : md = -1 := by simpa using hmd
    have hS1 : (insertSimplex (⟨md, []⟩ : SV) [v] attr).1 =
        (⟨0, [[([v], (⟨true, [], updateProps [] attr⟩ : Rec))]]⟩ : SV) := by
      rw [hins]
      dsimp only
      rw [if_pos (by rw [hmd0]; decide)]
      rfl
    rw [hS1]
    have hpy : pyIdx [[([v], (⟨true, [], updateProps [] attr⟩ : Rec))]]
        (((canon [v]).length : Int) - 1)
        = some [([v], (⟨true, [], updateProps [] attr⟩ : Rec))] := by
      rw [canon_singleton]
      rfl
    have hdl : dlookup [([v], (⟨true, [], updateProps [] attr⟩ : Rec))] (canon [v])
        = some (⟨true, [], updateProps [] attr⟩ : Rec) := by
      rw [canon_singleton]
      exact dlookup_dset_self [] [v] _
    have hfd1 : modifyDict [[([v], (⟨true, [], updateProps [] attr⟩ : Rec))]]
        ((canon [v]).length - 1) (fun d0 => derase d0 (canon [v])) = [[]] := by
      rw [canon_singleton]
      show [derase ([] ++ [([v], (⟨true, [], updateProps [] attr⟩ : Rec))]) [v]]
        = [[]]
      rw [derase_append_singleton [] [v] _
        (by intro e he; exact absurd he (List.not_mem_nil e))]
    have h4 : cascadeFold
        (modifyDict [[([v], (⟨true, [], updateProps [] attr⟩ : Rec))]]
          ((canon [v]).length - 1) (fun d0 => derase d0 (canon [v])))
        (canon [v]) ([v] : List Nat).length = ([[]], none) := by
      rw [cascadeFold_singleton, hfd1]
    have h5 : (getDict [[]] ((canon [v]).length - 1)).length = 0 ∧
        (((canon [v]).length : Int) - 1)
          = (⟨0, [[([v], (⟨true, [], updateProps [] attr⟩ : Rec))]]⟩ : SV).max_dim := by
      rw [canon_singleton]
      exact ⟨rfl, rfl⟩
    have hrem := removeMaximalSimplex_eq_ok_erase
      (⟨0, [[([v], (⟨true, [], updateProps [] attr⟩ : Rec))]]⟩ : SV) [v]
      [([v], (⟨true, [], updateProps [] attr⟩ : Rec))]
      (⟨true, [], updateProps [] attr⟩ : Rec) [[]] hpy hdl rfl h4 h5
    refine ⟨by rw [hrem], ?_⟩
    rw [hrem, hmd0]
    rfl
  | cons D0 rest =>
    have hmd2 : md = ((D0 :: rest).length : Int) - 1 := hmd
    have h0le : 0 ≤ md := by
      rw [hmd2, List.length_cons]
      omega
    have hU : updateFacesDictLength (D0 :: rest) 1 = D0 :: rest :=
      uFDL_noop _ _ (by simp)
    have hD0 : dlookup D0 [v] = none := by
      have h := habs
      rw [svLookup_eq_flookup] at h
      unfold flookup getDict at h
      simpa using h
    have hD0ne : D0 ≠ [] := by
      obtain ⟨k, rk, hk1, hk2⟩ := hsc 0 (by simp)
      rw [svLookup_eq_flookup] at hk2
      unfold flookup getDict at hk2
      rw [hk1] at hk2
      simp at hk2
      intro hc
      rw [hc] at hk2
      exact absurd hk2 (by simp [dlookup])
    have hS1 : (insertSimplex (⟨md, D0 :: rest⟩ : SV) [v] attr).1 =
        (⟨md, (D0 ++ [([v], (⟨true, [], updateProps [] attr⟩ : Rec))]) :: rest⟩ : SV) := by
      rw [hins]
      dsimp only
      rw [if_neg (by omega), hU]
      show (⟨md, dset D0 [v] (⟨true, [], updateProps [] attr⟩ : Rec) :: rest⟩ : SV)
        = (⟨md, (D0 ++ [([v], (⟨true, [], updateProps [] attr⟩ : Rec))]) :: rest⟩ : SV)
      rw [dset_eq_append D0 [v] (⟨true, [], updateProps [] attr⟩ : Rec) hD0]
    have hpy : pyIdx ((D0 ++ [([v], (⟨true, [], updateProps [] attr⟩ : Rec))]) :: rest)
        (((canon [v]).length : Int) - 1)
        = some (D0 ++ [([v], (⟨true, [], updateProps [] attr⟩ : Rec))]) := by
      rw [canon_singleton]
      norm_num [pyIdx, List.getElem?_cons_zero]
    have hdl : dlookup (D0 ++ [([v], (⟨true, [], updateProps [] attr⟩ : Rec))])
        (canon [v]) = some (⟨true, [], updateProps [] attr⟩ : Rec) := by
      rw [canon_singleton]
      exact dlookup_append_singleton D0 [v] _ hD0
    have h4 : cascadeFold
        (modifyDict ((D0 ++ [([v], (⟨true, [], updateProps [] attr⟩ : Rec))]) :: rest)
          ((canon [v]).length - 1) (fun d0 => derase d0 (canon [v])))
        (canon [v]) ([v] : List Nat).length = (D0 :: rest, none) := by
      rw [cascadeFold_singleton, canon_singleton]
      show (derase (D0 ++ [([v], (⟨true, [], updateProps [] attr⟩ : Rec))]) [v]
        :: rest, none) = (D0 :: rest, none)
      rw [derase_append_singleton D0 [v] _ (keys_ne_of_dlookup_none D0 [v] hD0)]
    have h5 : ¬ ((getDict (D0 :: rest) ((canon [v]).length - 1)).length = 0 ∧
        (((canon [v]).length : Int) - 1)
          = (⟨md, (D0 ++ [([v], (⟨true, [], updateProps [] attr⟩ : Rec))])
              :: rest⟩ : SV).max_dim) := by
      rw [canon_singleton]
      rintro ⟨hc1, -⟩
      simp [getDict] at hc1
      exact hD0ne hc1
    have hrem := removeMaximalSimplex_eq_ok_keep
      (⟨md, (D0 ++ [([v], (⟨true, [], updateProps [] attr⟩ : Rec))]) :: rest⟩ : SV)
      [v] (D0 ++ [([v], (⟨true, [], updateProps [] attr⟩ : Rec))])
      (⟨true, [], updateProps [] attr⟩ : Rec) (D0 :: rest) hpy hdl rfl h4 h5
    rw [hS1]
    exact ⟨by rw [hrem], by rw [hrem]⟩


/-- C3: deletion undoes insertion only in the single-node case. For every
view reachable from the empty view by insert_simplex calls and every node v
whose singleton simplex is absent (equivalently, disjoint from everything
stored), insert_simplex((v,)) followed by remove_maximal_simplex((v,))
raises nothing and returns the store, max_dim included, to exactly its prior
state. The claim's general form, for every disjoint simplex x, is refuted by
C3_counterexample: for x of two or more elements the removal keeps the
proper faces of x that the insertion created. -/
theorem C3_singleton_roundtrip (l : List (List Nat × Props)) (v : Nat)
    (attr : Props)
    (habs : svLookup (runInserts emptySV l) [v] = none) :
    (insertSimplex (runInserts emptySV l) [v] attr).2 = none ∧
    (removeMaximalSimplex
      (insertSimplex (runInserts emptySV l) [v] attr).1 [v]).2 = none ∧
    (removeMaximalSimplex
      (insertSimplex (runInserts emptySV l) [v] attr).1 [v]).1
      = runInserts emptySV l :=
  singleton_roundtrip (runInserts emptySV l) v attr (maxdim_runInserts l)
    (SlotsCovered_runInserts l) habs

/-- Witness for C3 at a concrete input: on the view holding the edge (1,2),
inserting the fresh node 5 and then removing it raises nothing and returns
the original view. -/
theorem C3_witness :
    (insertSimplex (runInserts emptySV [([1, 2], [])]) [5] []).2 = none ∧
    (removeMaximalSimplex
      (insertSimplex (runInserts emptySV [([1, 2], [])]) [5] []).1 [5]).2
      = none ∧
    (removeMaximalSimplex
      (insertSimplex (runInserts emptySV [([1, 2], [])]) [5] []).1 [5]).1
      = runInserts emptySV [([1, 2], [])] :=
  C3_singleton_roundtrip [([1, 2], [])] 5 [] (by decide)

end Toponetx
